import Mathlib

/-!
Verification of the arctic CTI trap-manager core (`src/trap_managers.cpp`,
`TrapManager` and `TrapManagerInstantCapture`) against its specification.

The watermark state machine is embedded shallowly over exact rationals:
`std::valarray<double>` buffers become `List ℚ` (reads via `List.getD` with
the empty sentinel `0` as default, writes via `List.set`), C++ `int` indices
become `ℕ` (with one `Int.toNat` where the source forms a signed sum), and
the one floating-point quotient whose divisor can be zero
(`enough = n_free_electrons / n_captured`) is guarded: the capture step
returns `none` when the divisor is zero, `some` otherwise.

The fill probabilities computed with `exp` are verified separately over `ℝ`;
the rational dynamics takes `empty_probabilities_from_release` as a
precomputed per-species list, exactly as the source stores it.
-/

attribute [local semireducible] Rat.add Rat.mul Rat.sub Rat.inv Rat.ofScientific

/-- Summation of `f 0 + f 1 + ... + f (n-1)`, used to mirror the source's
`for` loops that accumulate over trap species or watermark levels. -/
def sumN (f : ℕ → ℚ) : ℕ → ℚ
  | 0 => 0
  | n + 1 => sumN f n + f n

/-- One trap species as used by the rational dynamics: only the density
enters `n_electrons_released` / `n_electrons_captured`. -/
structure Trap where
  density : ℚ
deriving DecidableEq, Repr

/-- Modelled from the spec: `ccd.cpp` is not under `src/`, only its caller
`trap_managers.cpp` is. Spec section 3.2 defines
`cloud_fractional_volume(n_e) = clamp(((n_e − notch) / (full_well − notch))
^ well_fill_power, 0, 1)` and section 4.2 adds that the function returns 0
for `n_e ≤ notch` and 1 for `n_e ≥ full_well`. The exponent is kept as a
natural number so that the model stays computable over `ℚ`; every concrete
evaluation in this file uses `well_fill_power = 1`. -/
structure CCDPhase where
  full_well_depth : ℚ
  well_notch_depth : ℚ
  well_fill_power : ℕ
deriving DecidableEq, Repr

/-- Modelled from the spec (see `CCDPhase`): the clamp of the power law,
zero at or below the notch. -/
def cloud_fractional_volume_from_electrons (ccd : CCDPhase) (n_electrons : ℚ) : ℚ :=
  if n_electrons ≤ ccd.well_notch_depth then 0
  else min 1 (((n_electrons - ccd.well_notch_depth) /
      (ccd.full_well_depth - ccd.well_notch_depth)) ^ ccd.well_fill_power)

/-- The watermark state of one `TrapManagerInstantCapture`, with the fields
of the C++ class that the verified operations read or write. Buffers are
lists of rationals; all cells start at the empty sentinel `0.0`. -/
structure TrapManager where
  traps : List Trap
  max_n_transfers : ℕ
  ccd : CCDPhase
  n_traps : ℕ
  n_watermarks_per_transfer : ℕ
  empty_watermark : ℚ
  n_watermarks : ℕ
  watermark_volumes : List ℚ
  watermark_fills : List ℚ
  n_active_watermarks : ℕ
  i_first_active_wmk : ℕ
  stored_n_active_watermarks : ℕ
  stored_i_first_active_wmk : ℕ
  stored_watermark_volumes : List ℚ
  stored_watermark_fills : List ℚ
  empty_probabilities_from_release : List ℚ
deriving DecidableEq, Repr

namespace TrapManager

/-- Constructor `TrapManager::TrapManager` followed by the
`TrapManagerInstantCapture` override `n_watermarks_per_transfer = 1`.
`empty_probabilities_from_release` is the list the C++ code precomputes in
`set_fill_probabilities_from_dwell_time`; the exponential formulas behind it
are verified over `ℝ` separately. -/
def mkInstantCapture (traps : List Trap) (max_n_transfers : ℕ) (ccd : CCDPhase)
    (empty_probabilities_from_release : List ℚ) : TrapManager where
  traps := traps
  max_n_transfers := max_n_transfers
  ccd := ccd
  n_traps := traps.length
  n_watermarks_per_transfer := 1
  empty_watermark := 0
  n_watermarks := 0
  watermark_volumes := []
  watermark_fills := []
  n_active_watermarks := 0
  i_first_active_wmk := 0
  stored_n_active_watermarks := 0
  stored_i_first_active_wmk := 0
  stored_watermark_volumes := []
  stored_watermark_fills := []
  empty_probabilities_from_release := empty_probabilities_from_release

/-- `TrapManager::store_trap_states`. -/
def store_trap_states (s : TrapManager) : TrapManager :=
  { s with
    stored_n_active_watermarks := s.n_active_watermarks
    stored_i_first_active_wmk := s.i_first_active_wmk
    stored_watermark_volumes := s.watermark_volumes
    stored_watermark_fills := s.watermark_fills }

/-- `TrapManager::initialise_trap_states`: size the buffers at capacity
`n_watermarks = max_n_transfers * n_watermarks_per_transfer + 1`, fill them
with the empty sentinel, and store the (empty) trap states. -/
def initialise_trap_states (s : TrapManager) : TrapManager :=
  let n_wmks := s.max_n_transfers * s.n_watermarks_per_transfer + 1
  store_trap_states
    { s with
      n_watermarks := n_wmks
      watermark_volumes := List.replicate n_wmks s.empty_watermark
      watermark_fills := List.replicate (s.n_traps * n_wmks) s.empty_watermark }

/-- `TrapManager::reset_trap_states`: clear the active window and rewrite
the buffers with the empty sentinel; the stored snapshot is untouched. -/
def reset_trap_states (s : TrapManager) : TrapManager :=
  { s with
    n_active_watermarks := 0
    i_first_active_wmk := 0
    watermark_volumes := List.replicate s.n_watermarks s.empty_watermark
    watermark_fills := List.replicate (s.n_traps * s.n_watermarks) s.empty_watermark }

/-- `TrapManager::restore_trap_states`. -/
def restore_trap_states (s : TrapManager) : TrapManager :=
  { s with
    n_active_watermarks := s.stored_n_active_watermarks
    i_first_active_wmk := s.stored_i_first_active_wmk
    watermark_volumes := s.stored_watermark_volumes
    watermark_fills := s.stored_watermark_fills }

/-- Density of trap species `t` (0 beyond the list, matching the sentinel
reads of the shallow embedding). -/
def density (s : TrapManager) (t : ℕ) : ℚ :=
  (s.traps.getD t ⟨0⟩).density

/-- `TrapManager::n_trapped_electrons_from_watermarks`: per species, gather
the fill-fraction column over the active window, multiply by the fractional
volumes, sum, and weight by the density. The C++ method takes the two
arrays as parameters (its callers pass the members). -/
def n_trapped_electrons_from_watermarks (s : TrapManager)
    (wmk_volumes wmk_fills : List ℚ) : ℚ :=
  if s.n_active_watermarks = 0 then 0
  else
    sumN (fun t =>
      sumN (fun k =>
        wmk_fills.getD ((s.i_first_active_wmk + k) * s.n_traps + t) 0 *
          wmk_volumes.getD (s.i_first_active_wmk + k) 0) s.n_active_watermarks *
        s.density t) s.n_traps

/-- Loop body of `watermark_index_above_cloud_from_volumes`: starting at
index `i` with `k` iterations left and running total `cum`, return the
first index whose cumulative volume strictly exceeds the cloud volume, or
`none` when the loop finishes. -/
def watermark_index_above_go (vols : List ℚ) (cloud : ℚ) :
    ℕ → ℚ → ℕ → Option ℕ
  | _, _, 0 => none
  | i, cum, k + 1 =>
    let c := cum + vols.getD i 0
    if cloud < c then some i else watermark_index_above_go vols cloud (i + 1) c k

/-- `TrapManager::watermark_index_above_cloud_from_volumes`. The C++ body
sums the member `watermark_volumes` (not the `wmk_volumes` parameter; its
only caller passes the member anyway) over the active window and, when no
cumulative volume exceeds the cloud volume, falls through to
`return n_active_watermarks;`. -/
def watermark_index_above_cloud_from_volumes (s : TrapManager)
    (wmk_volumes : List ℚ) (cloud_fractional_volume : ℚ) : ℕ :=
  (watermark_index_above_go s.watermark_volumes cloud_fractional_volume
      s.i_first_active_wmk 0 s.n_active_watermarks).getD s.n_active_watermarks

end TrapManager

namespace TrapManager

/-- Inner loop of `n_electrons_released` over the trap species of one
watermark at fill-row offset `base`: accumulates the released electrons of
the first `t` species and updates their fill fractions in place. -/
def release_traps_go (densities ps : List ℚ) (base : ℕ) :
    List ℚ → ℕ → ℚ × List ℚ
  | fills, 0 => (0, fills)
  | fills, t + 1 =>
    let (acc, fl) := release_traps_go densities ps base fills t
    let f := fl.getD (base + t) 0
    let frac := f * ps.getD t 0
    (acc + frac * densities.getD t 0, fl.set (base + t) (f - frac))

/-- Outer loop of `n_electrons_released` over the active watermarks,
starting at watermark `i` with `k` watermarks left. -/
def release_wmks_go (densities ps vols : List ℚ) (nt : ℕ) :
    List ℚ → ℕ → ℕ → ℚ × List ℚ
  | fills, _, 0 => (0, fills)
  | fills, i, k + 1 =>
    let (this, fl) := release_traps_go densities ps (i * nt) fills nt
    let (rest, fl2) := release_wmks_go densities ps vols nt fl (i + 1) k
    (this * vols.getD i 0 + rest, fl2)

/-- `TrapManagerInstantCapture::n_electrons_released`: for each active
watermark and species, release `fills * empty_probabilities_from_release`
of the filled traps, weight by density and fractional volume, and lower the
fill fraction accordingly. Returns the released count and the updated
manager. -/
def n_electrons_released (s : TrapManager) : ℚ × TrapManager :=
  let r := release_wmks_go (s.traps.map Trap.density)
    s.empty_probabilities_from_release s.watermark_volumes s.n_traps
    s.watermark_fills s.i_first_active_wmk s.n_active_watermarks
  (r.1, { s with watermark_fills := r.2 })

/-- Per-watermark capture capacity `Σ_t (1 - fills[i_wmk * n_traps + t]) *
density_t` of `n_electrons_captured`'s counting loop. -/
def capture_capacity (nt : ℕ) (densities : ℕ → ℚ) (fills : List ℚ)
    (i_wmk : ℕ) : ℚ :=
  sumN (fun t => (1 - fills.getD (i_wmk * nt + t) 0) * densities t) nt

/-- Counting loop of `n_electrons_captured`: from watermark `i` with
running cumulative volume `cum` and `k` iterations left, add each
watermark's capacity times its volumetric width — the full width
`next_cumulative_volume - cumulative_volume` for interior watermarks and
`cloud_fractional_volume - cumulative_volume` for the watermark at
`i_wmk_above_cloud`. -/
def capture_count_go (nt : ℕ) (densities : ℕ → ℚ) (fills vols : List ℚ)
    (cloud : ℚ) (i_above : ℕ) : ℕ → ℚ → ℕ → ℚ
  | _, _, 0 => 0
  | i, cum, k + 1 =>
    let nxt := cum + vols.getD i 0
    (if i = i_above then capture_capacity nt densities fills i * (cloud - cum)
     else capture_capacity nt densities fills i * (nxt - cum)) +
      capture_count_go nt densities fills vols cloud i_above (i + 1) nxt k

/-- The whole counting loop, `for (i_wmk = i_first_active_wmk;
i_wmk <= i_wmk_above_cloud; i_wmk++)`: it runs `i_above + 1 - i_first`
times (zero when `i_above < i_first`). -/
def capture_count (s : TrapManager) (cloud : ℚ) (i_above : ℕ) : ℚ :=
  capture_count_go s.n_traps s.density s.watermark_fills s.watermark_volumes
    cloud i_above s.i_first_active_wmk 0 (i_above + 1 - s.i_first_active_wmk)

/-- Write the constant `v` into `count` consecutive cells starting at
`start`. -/
def set_cells_const (l : List ℚ) (start count : ℕ) (v : ℚ) : List ℚ :=
  match count with
  | 0 => l
  | k + 1 => (set_cells_const l start k v).set (start + k) v

/-- Write the constant `v` into the `nt` fill cells of row `row`
(the slice assignments `watermark_fills[std::slice(row * n_traps,
n_traps, 1)] = v`). -/
def set_row_const (fills : List ℚ) (nt row : ℕ) (v : ℚ) : List ℚ :=
  set_cells_const fills (row * nt) nt v

/-- Blend `count` consecutive fill cells starting at `start` toward 1 by
`enough`: `f := f * (1 - enough) + enough` (the partial-capture slice
updates). -/
def blend_cells (fills : List ℚ) (start count : ℕ) (e : ℚ) : List ℚ :=
  match count with
  | 0 => fills
  | k + 1 =>
    let fl := blend_cells fills start k e
    fl.set (start + k) (fl.getD (start + k) 0 * (1 - e) + e)

/-- The copy-paste loops `for (i_wmk = lo + cnt - 1; i_wmk >= lo; i_wmk--)
{ arr[i_wmk + 1] = arr[i_wmk]; }`: cells `[lo, lo + cnt)` are copied one
cell up, all reads taken from the original array (the descending order of
the source loop makes every read see the pre-loop value). -/
def copy_up_cells (l : List ℚ) (lo cnt : ℕ) : List ℚ :=
  match cnt with
  | 0 => l
  | k + 1 => (copy_up_cells l lo k).set (lo + k + 1) (l.getD (lo + k) 0)

/-- The fills part of the copy-paste loops: rows `[lo, lo + cnt)` of width
`nt` are copied one row up. -/
def copy_up_rows (fills : List ℚ) (nt lo cnt : ℕ) : List ℚ :=
  match cnt with
  | 0 => fills
  | k + 1 => copy_row (copy_up_rows fills nt lo k) (lo + k)
where
  /-- Copy row `src` of the original array into row `src + 1`. -/
  copy_row (acc : List ℚ) (src : ℕ) : List ℚ :=
    match nt with
    | 0 => acc
    | t + 1 => copy_row_go acc src (t + 1)
  copy_row_go (acc : List ℚ) (src : ℕ) : ℕ → List ℚ
    | 0 => acc
    | t + 1 => (copy_row_go acc src t).set ((src + 1) * nt + t)
        (fills.getD (src * nt + t) 0)

/-- Sum of `cnt` consecutive volume cells starting at `lo` (the
`previous_total_volume` / `volume_below` accumulation loops). -/
def sum_cells (l : List ℚ) (lo cnt : ℕ) : ℚ :=
  sumN (fun k => l.getD (lo + k) 0) cnt

end TrapManager

namespace TrapManager

/-- The `enough >= 1.0` ("normal full capture") update of
`TrapManagerInstantCapture::n_electrons_captured`: everything up to the
cloud volume becomes fully filled, with the topology change of the branch
taken (first capture / cloud below all / cloud above all / cloud between).
The source updates `n_active_watermarks += i_first_active_wmk -
i_wmk_above_cloud + 1` in signed `int` arithmetic; the embedding forms the
same value over `ℤ` and truncates at zero. -/
def update_watermarks_full (s : TrapManager) (cloud : ℚ) (i_above : ℕ) :
    TrapManager :=
  if s.n_active_watermarks = 0 then
    { s with
      watermark_volumes := s.watermark_volumes.set 0 cloud
      watermark_fills := set_row_const s.watermark_fills s.n_traps 0 1
      n_active_watermarks := s.n_active_watermarks + 1 }
  else if i_above = s.i_first_active_wmk then
    let s1 :=
      if 0 < s.i_first_active_wmk then
        { s with i_first_active_wmk := s.i_first_active_wmk - 1 }
      else
        { s with
          watermark_volumes := copy_up_cells s.watermark_volumes
            s.i_first_active_wmk (s.n_active_watermarks + 1)
          watermark_fills := copy_up_rows s.watermark_fills s.n_traps
            s.i_first_active_wmk (s.n_active_watermarks + 1) }
    { s1 with
      n_active_watermarks := s1.n_active_watermarks + 1
      watermark_volumes :=
        (s1.watermark_volumes.set s1.i_first_active_wmk cloud).set
          (s1.i_first_active_wmk + 1)
          (s1.watermark_volumes.getD (s1.i_first_active_wmk + 1) 0 - cloud)
      watermark_fills := set_row_const s1.watermark_fills s1.n_traps
        s1.i_first_active_wmk 1 }
  else if i_above = s.i_first_active_wmk + s.n_active_watermarks then
    { s with
      i_first_active_wmk := i_above - 1
      watermark_volumes := s.watermark_volumes.set (i_above - 1) cloud
      watermark_fills := set_row_const s.watermark_fills s.n_traps (i_above - 1) 1
      n_active_watermarks := 1 }
  else
    let prev_total := sum_cells s.watermark_volumes s.i_first_active_wmk
      (i_above + 1 - s.i_first_active_wmk)
    { s with
      watermark_volumes :=
        (s.watermark_volumes.set i_above (prev_total - cloud)).set
          (i_above - 1) cloud
      watermark_fills := set_row_const s.watermark_fills s.n_traps (i_above - 1) 1
      n_active_watermarks :=
        ((s.n_active_watermarks : ℤ) + s.i_first_active_wmk + 1 - i_above).toNat
      i_first_active_wmk := i_above - 1 }

/-- The `enough < 1.0` ("partial capture") update of
`TrapManagerInstantCapture::n_electrons_captured`: each watermark reached
is filled a fraction `enough` of the way to full via
`fills = fills * (1 - enough) + enough`, with the topology change of the
branch taken. The cloud-between shift loop starts at the source's
`i_wmk_above_cloud - 1 + n_active_watermarks - i_first_active_wmk`, so it
copies `n_active_watermarks - i_first_active_wmk` cells up one. -/
def update_watermarks_enough (s : TrapManager) (cloud : ℚ) (i_above : ℕ)
    (enough : ℚ) : TrapManager :=
  if s.n_active_watermarks = 0 then
    { s with
      watermark_volumes := s.watermark_volumes.set 0 cloud
      watermark_fills := set_row_const s.watermark_fills s.n_traps 0 enough
      n_active_watermarks := s.n_active_watermarks + 1 }
  else if i_above = s.i_first_active_wmk then
    let s1 :=
      if 0 < s.i_first_active_wmk then
        { s with i_first_active_wmk := s.i_first_active_wmk - 1 }
      else
        { s with
          watermark_volumes := copy_up_cells s.watermark_volumes
            s.i_first_active_wmk (s.n_active_watermarks + 1)
          watermark_fills := copy_up_rows s.watermark_fills s.n_traps
            s.i_first_active_wmk (s.n_active_watermarks + 1) }
    { s1 with
      n_active_watermarks := s1.n_active_watermarks + 1
      watermark_volumes :=
        (s1.watermark_volumes.set s1.i_first_active_wmk cloud).set
          (s1.i_first_active_wmk + 1)
          (s1.watermark_volumes.getD (s1.i_first_active_wmk + 1) 0 - cloud)
      watermark_fills := blend_cells s1.watermark_fills
        (s1.i_first_active_wmk * s1.n_traps) s1.n_traps enough }
  else if i_above = s.i_first_active_wmk + s.n_active_watermarks then
    let vol_below := sum_cells s.watermark_volumes s.i_first_active_wmk
      (i_above - s.i_first_active_wmk)
    { s with
      watermark_volumes := s.watermark_volumes.set i_above (cloud - vol_below)
      n_active_watermarks := s.n_active_watermarks + 1
      watermark_fills := blend_cells s.watermark_fills
        (s.i_first_active_wmk * s.n_traps)
        ((s.n_active_watermarks + 1) * s.n_traps) enough }
  else
    let vols1 := copy_up_cells s.watermark_volumes i_above
      (s.n_active_watermarks - s.i_first_active_wmk)
    let fills1 := copy_up_rows s.watermark_fills s.n_traps i_above
      (s.n_active_watermarks - s.i_first_active_wmk)
    let vol_below := sum_cells vols1 s.i_first_active_wmk
      (i_above - s.i_first_active_wmk)
    let vols2 := vols1.set i_above (cloud - vol_below)
    let vols3 := vols2.set (i_above + 1)
      (vols2.getD (i_above + 1) 0 - (cloud - vol_below))
    { s with
      watermark_volumes := vols3
      n_active_watermarks := s.n_active_watermarks + 1
      watermark_fills := blend_cells fills1
        (s.i_first_active_wmk * s.n_traps)
        ((i_above + 1 - s.i_first_active_wmk) * s.n_traps) enough }

/-- `TrapManagerInstantCapture::n_electrons_captured`. Steps: cloud volume
from the CCD; early return 0 when the cloud volume is 0; the index above
the cloud; the counting loop; then `enough = n_free_electrons / n_captured`
decides full versus partial capture. The division is guarded: when the
counting loop yields `n_captured = 0` the floating-point quotient of the
source is not finite, and the embedding returns `none`. -/
def n_electrons_captured (s : TrapManager) (n_free_electrons : ℚ) :
    Option (ℚ × TrapManager) :=
  let cloud := cloud_fractional_volume_from_electrons s.ccd n_free_electrons
  if cloud = 0 then some (0, s)
  else
    let i_above := watermark_index_above_cloud_from_volumes s
      s.watermark_volumes cloud
    let n_captured := capture_count s cloud i_above
    if n_captured = 0 then none
    else
      let enough := n_free_electrons / n_captured
      if 1 ≤ enough then some (n_captured, update_watermarks_full s cloud i_above)
      else some (n_captured * enough,
        update_watermarks_enough s cloud i_above enough)

/-- `TrapManagerInstantCapture::n_electrons_released_and_captured`: release,
then capture with the released electrons added to the free charge; return
`n_released - n_captured`. -/
def n_electrons_released_and_captured (s : TrapManager) (n_free_electrons : ℚ) :
    Option (ℚ × TrapManager) :=
  let r := n_electrons_released s
  match n_electrons_captured r.2 (n_free_electrons + r.1) with
  | none => none
  | some p => some (r.1 - p.1, p.2)

/-- Run a sequence of `release_and_capture` calls (the per-transfer loop of
the clocker), propagating the division guard. -/
def run_rc (s : TrapManager) : List ℚ → Option TrapManager
  | [] => some s
  | q :: qs =>
    match n_electrons_released_and_captured s q with
    | none => none
    | some (_, s1) => run_rc s1 qs

end TrapManager

/-- A public trap-manager operation, for statements quantifying over
operation sequences. -/
inductive Op where
  | rc (n_free : ℚ)
  | reset
  | store
  | restore
deriving DecidableEq, Repr

namespace TrapManager

/-- Apply one public operation. -/
def run_op (s : TrapManager) : Op → Option TrapManager
  | .rc q => (n_electrons_released_and_captured s q).map Prod.snd
  | .reset => some (reset_trap_states s)
  | .store => some (store_trap_states s)
  | .restore => some (restore_trap_states s)

/-- Apply a list of public operations in order. -/
def run_ops (s : TrapManager) : List Op → Option TrapManager
  | [] => some s
  | op :: ops =>
    match run_op s op with
    | none => none
    | some s1 => run_ops s1 ops

end TrapManager

namespace TrapManager

/-- Indices written by the copy-paste loops: the loop
`for (i_wmk = lo + cnt - 1; i_wmk >= lo; i_wmk--)` writes cells
`lo + 1, ..., lo + cnt`. -/
def shift_write_indices (lo cnt : ℕ) : List ℕ :=
  (List.range cnt).map (fun k => lo + k + 1)

/-- The `watermark_volumes` indices written by one call of
`n_electrons_captured`, read off the branch structure of the source (used
to check the spec's index-range safety claim; the early returns write
nothing). -/
def capture_volume_write_indices (s : TrapManager) (n_free_electrons : ℚ) :
    List ℕ :=
  let cloud := cloud_fractional_volume_from_electrons s.ccd n_free_electrons
  if cloud = 0 then []
  else
    let i_above := watermark_index_above_cloud_from_volumes s
      s.watermark_volumes cloud
    let n_captured := capture_count s cloud i_above
    if n_captured = 0 then []
    else
      let make_room :=
        if 0 < s.i_first_active_wmk then ([] : List ℕ)
        else shift_write_indices s.i_first_active_wmk (s.n_active_watermarks + 1)
      let i_first1 :=
        if 0 < s.i_first_active_wmk then s.i_first_active_wmk - 1
        else s.i_first_active_wmk
      if 1 ≤ n_free_electrons / n_captured then
        if s.n_active_watermarks = 0 then [0]
        else if i_above = s.i_first_active_wmk then
          make_room ++ [i_first1, i_first1 + 1]
        else if i_above = s.i_first_active_wmk + s.n_active_watermarks then
          [i_above - 1]
        else [i_above, i_above - 1]
      else
        if s.n_active_watermarks = 0 then [0]
        else if i_above = s.i_first_active_wmk then
          make_room ++ [i_first1, i_first1 + 1]
        else if i_above = s.i_first_active_wmk + s.n_active_watermarks then
          [i_above]
        else
          shift_write_indices i_above
            (s.n_active_watermarks - s.i_first_active_wmk) ++
            [i_above, i_above + 1]

/-- The `watermark_volumes` indices written by one
`n_electrons_released_and_captured` call (the release phase writes only
fills). -/
def rc_volume_write_indices (s : TrapManager) (n_free_electrons : ℚ) : List ℕ :=
  let r := n_electrons_released s
  capture_volume_write_indices r.2 (n_free_electrons + r.1)

/-- The spec's watermark invariants I1-I4 (section 3.3) for a manager
state: buffers sized at capacity, the active window inside the buffers,
active volumes in `[0, 1]` summing to at most `1 + 10⁻¹⁰`, active fill
fractions in `[0, 1]`, and every non-active cell holding the empty
sentinel. -/
def ValidState (s : TrapManager) : Prop :=
  s.watermark_volumes.length = s.n_watermarks ∧
  s.watermark_fills.length = s.n_traps * s.n_watermarks ∧
  s.i_first_active_wmk + s.n_active_watermarks ≤ s.n_watermarks ∧
  (∀ k < s.n_active_watermarks,
    0 ≤ s.watermark_volumes.getD (s.i_first_active_wmk + k) 0 ∧
      s.watermark_volumes.getD (s.i_first_active_wmk + k) 0 ≤ 1) ∧
  sum_cells s.watermark_volumes s.i_first_active_wmk s.n_active_watermarks ≤
    1 + 1 / 10 ^ 10 ∧
  (∀ k < s.n_active_watermarks, ∀ t < s.n_traps,
    0 ≤ s.watermark_fills.getD ((s.i_first_active_wmk + k) * s.n_traps + t) 0 ∧
      s.watermark_fills.getD ((s.i_first_active_wmk + k) * s.n_traps + t) 0 ≤ 1) ∧
  (∀ j < s.n_watermarks, j < s.i_first_active_wmk ∨
    s.i_first_active_wmk + s.n_active_watermarks ≤ j →
      s.watermark_volumes.getD j 0 = 0) ∧
  (∀ j < s.n_traps * s.n_watermarks, j < s.i_first_active_wmk * s.n_traps ∨
    (s.i_first_active_wmk + s.n_active_watermarks) * s.n_traps ≤ j →
      s.watermark_fills.getD j 0 = 0)

instance (s : TrapManager) : Decidable (ValidState s) := by
  unfold ValidState; infer_instance

/-- All buffer cells at or above the top of the active window (index
`i_first_active_wmk + n_active_watermarks`) hold the empty sentinel, in
both the live buffers and the stored snapshot. -/
def AboveClean (s : TrapManager) : Prop :=
  (∀ j < s.watermark_volumes.length,
    s.i_first_active_wmk + s.n_active_watermarks ≤ j →
      s.watermark_volumes.getD j 0 = 0) ∧
  (∀ j < s.watermark_fills.length,
    (s.i_first_active_wmk + s.n_active_watermarks) * s.n_traps ≤ j →
      s.watermark_fills.getD j 0 = 0) ∧
  (∀ j < s.stored_watermark_volumes.length,
    s.stored_i_first_active_wmk + s.stored_n_active_watermarks ≤ j →
      s.stored_watermark_volumes.getD j 0 = 0) ∧
  (∀ j < s.stored_watermark_fills.length,
    (s.stored_i_first_active_wmk + s.stored_n_active_watermarks) * s.n_traps ≤ j →
      s.stored_watermark_fills.getD j 0 = 0)

instance (s : TrapManager) : Decidable (AboveClean s) := by
  unfold AboveClean; infer_instance

end TrapManager

/-- Capture and emission rates of one trap species, for the fill
probabilities computed over `ℝ` (`capture_rate = 0` marks an
instant-capture species, as in `TrapInstantCapture`). -/
structure TrapRates where
  capture_rate : ℝ
  emission_rate : ℝ

/-- `TrapManager::set_fill_probabilities_from_dwell_time` for one species:
`(fill_probabilities_from_empty, fill_probabilities_from_full,
fill_probabilities_from_release, empty_probabilities_from_release)`,
computed exactly as in the source (Lindegren 1998, eqns. 20-21). -/
noncomputable def fill_probabilities_from_dwell_time (tr : TrapRates)
    (dwell_time : ℝ) : ℝ × ℝ × ℝ × ℝ :=
  let total_rate := tr.capture_rate + tr.emission_rate
  let exponential_factor := (1 - Real.exp (-total_rate * dwell_time)) / total_rate
  let from_empty :=
    if tr.capture_rate = 0 then 1 else tr.capture_rate * exponential_factor
  let from_full := 1 - tr.emission_rate * exponential_factor
  let from_release := Real.exp (-tr.emission_rate * dwell_time)
  (from_empty, from_full, from_release, 1 - from_release)

/-! ### Concrete managers and states for the evaluation theorems -/

/-- An initialised single-species manager (density 1, release probability
1/2, `max_n_transfers = 6`, linear CCD with full well 1 and no notch). -/
def manager_a : TrapManager :=
  TrapManager.initialise_trap_states
    (TrapManager.mkInstantCapture [⟨1⟩] 6 ⟨1, 0, 1⟩ [1/2])

/-- An initialised single-species manager with density 100 and
`max_n_transfers = 5`, so capacity `n_watermarks = 6`. -/
def manager_b : TrapManager :=
  TrapManager.initialise_trap_states
    (TrapManager.mkInstantCapture [⟨100⟩] 5 ⟨1, 0, 1⟩ [1/2])

/-- An initialised manager whose single species has density 0 (the spec
only requires densities to be non-negative). -/
def manager_zero_density : TrapManager :=
  TrapManager.initialise_trap_states
    (TrapManager.mkInstantCapture [⟨0⟩] 3 ⟨1, 0, 1⟩ [1/2])

/-- An initialised manager used for the reset/restore experiments. -/
def manager_c : TrapManager :=
  TrapManager.initialise_trap_states
    (TrapManager.mkInstantCapture [⟨1⟩] 2 ⟨1, 0, 1⟩ [1/2])

/-- A valid watermark state (invariants I1-I4 hold) with one active
watermark at index 1: `i_first_active_wmk = 1`, volume 1/2, fill 1/2,
density 8, release probability 1/100. -/
def state_d : TrapManager :=
  { TrapManager.mkInstantCapture [⟨8⟩] 3 ⟨1, 0, 1⟩ [1/100] with
    n_watermarks := 4
    watermark_volumes := [0, 1/2, 0, 0]
    watermark_fills := [0, 1/2, 0, 0]
    n_active_watermarks := 1
    i_first_active_wmk := 1 }

/-! ### Claim theorems: evaluations -/

/-- C1: the spec says that when no active watermark's cumulative volume
exceeds the cloud volume, `watermark_index_above_cloud_from_volumes`
returns `i_first_active_wmk + n_active_watermarks`, including for states
with `i_first_active_wmk > 0`. The code instead returns the bare
`n_active_watermarks`: at the valid state `state_d` (one active watermark
at index 1, volume 1/2) with cloud volume 3/4 the function returns 1,
while `i_first_active_wmk + n_active_watermarks = 2`. -/
theorem c1_watermark_index_bare_count :
    TrapManager.watermark_index_above_cloud_from_volumes state_d
      state_d.watermark_volumes (3/4) = 1 ∧
    state_d.i_first_active_wmk + state_d.n_active_watermarks = 2 ∧
    TrapManager.ValidState state_d := by decide

/-- C3: a five-call `release_and_capture` sequence from the initialised
`manager_a` (all cloud volumes in `[0, 1]`) ends with the active watermark
at index 2 (the window is `[1, 3)`) holding the negative volume
`-253/2560`, violating `0 ≤ volumes[i]`. The corruption enters at call 4,
which leaves `i_first_active_wmk = 1`, after which call 5's cloud lies
above the whole stack but `watermark_index_above_cloud_from_volumes`
returns the bare count 2, so the capture runs its cloud-between branch and
writes `previous_total_volume - cloud_fractional_volume < 0`. -/
theorem c3_negative_volume_trace :
    (TrapManager.run_rc manager_a [3/5, 0, 0, 1/5, 1/2]).map
      (fun s => (s.i_first_active_wmk, s.n_active_watermarks,
        s.watermark_volumes.getD 2 0)) = some (1, 2, -253/2560) ∧
    (-253/2560 : ℚ) < 0 := by decide

/-- C5 counterexample: after the four-call sequence below, the active
window is `[1, 3)` but cell 0 of `watermark_volumes` — a non-active cell
below the window, skipped past by call 4's capture — still holds the stale
value `9/40`, not the empty sentinel `0.0`. -/
theorem c5_stale_cell_below_window :
    (TrapManager.run_rc manager_a [3/5, 0, 0, 1/5]).map
      (fun s => (s.i_first_active_wmk, s.n_active_watermarks,
        s.watermark_volumes.getD 0 0)) = some (1, 2, 9/40) ∧
    (9/40 : ℚ) ≠ 0 := by decide

/-- C8: on `manager_b` (capacity `n_watermarks = max_n_transfers * 1 + 1
= 6`), four transfers build four watermarks and the fifth transfer takes
the partial-capture cloud-between branch, whose copy-paste shift loop
starts at `i_wmk_above_cloud - 1 + n_active_watermarks -
i_first_active_wmk = 6` and therefore reads `watermark_volumes[6]` and
writes `watermark_volumes[6]` and `watermark_volumes[7]` — both outside
the preallocated range `[0, 6)`, within `max_n_transfers` transfers. -/
theorem c8_out_of_range_write_trace :
    (TrapManager.run_rc manager_b [1/10, 1/5, 3/10, 2/5]).map
      (fun s => (s.n_watermarks,
        (TrapManager.rc_volume_write_indices s (1/100)).filter
          (fun i => s.n_watermarks ≤ i))) = some (6, [6, 7]) := by decide

/-- C10: with the zero-density species of `manager_zero_density` — a valid
configuration, densities need only be non-negative — the free charge 1
reaches cloud fractional volume 1 > 0 while the counting loop yields
`n_captured = 0`, so the guarded division `enough = n_free_electrons /
n_captured` takes its error branch (the embedding returns `none`; the
source's unguarded floating-point quotient is not finite). -/
theorem c10_divisor_zero_reachable :
    TrapManager.n_electrons_captured manager_zero_density 1 = none ∧
    0 < cloud_fractional_volume_from_electrons manager_zero_density.ccd 1 := by
  decide

/-- C2 counterexample: at the valid watermark state `state_d`, the call
`n_electrons_released_and_captured (1/10)` releases 1/50, captures 3/25
and returns their difference `-1/10`, but `n_trapped_electrons_from_watermarks`
drops from 2 to 219981/126250 — a change of `-32519/126250`, not the
`captured - released = 1/10` that electron conservation requires (the call
takes the partial-capture cloud-below branch with `i_first_active_wmk > 0`,
whose new bottom watermark blends its fills from a stale cell). -/
theorem c2_conservation_counterexample :
    TrapManager.ValidState state_d ∧
    TrapManager.n_trapped_electrons_from_watermarks state_d
      state_d.watermark_volumes state_d.watermark_fills = 2 ∧
    (TrapManager.n_electrons_released_and_captured state_d (1/10)).map
      (fun p => (p.1, TrapManager.n_trapped_electrons_from_watermarks p.2
        p.2.watermark_volumes p.2.watermark_fills)) =
      some (-1/10, 219981/126250) ∧
    ¬ ((219981/126250 : ℚ) - 2 = 1/10) := by decide

/-- C6 counterexample: start from the freshly initialised `manager_c`, run
one transfer and `store` — a reachable state whose stored snapshot is
non-empty. `reset` then yields a manager that a subsequent
`restore_trap_states` distinguishes from the freshly initialised manager of
the same capacity: restore after reset brings back volume 1/2 at cell 0,
while restore on the fresh manager leaves the empty 0. -/
theorem c6_restore_distinguishes_reset :
    (TrapManager.run_ops manager_c [Op.rc (1/2), Op.store]).map
      (fun s =>
        ((TrapManager.restore_trap_states
            (TrapManager.reset_trap_states s)).watermark_volumes.getD 0 0,
         (TrapManager.restore_trap_states manager_c).watermark_volumes.getD 0 0)) =
      some (1/2, 0) ∧ (1/2 : ℚ) ≠ 0 := by decide

namespace TrapManager

/-- The four watermark-state fields of the common contract: volumes, fills,
active count, first-active index. -/
def watermark_state (s : TrapManager) : List ℚ × List ℚ × ℕ × ℕ :=
  (s.watermark_volumes, s.watermark_fills, s.n_active_watermarks,
    s.i_first_active_wmk)

/-- Everything `release_and_capture` does not touch: the configuration
parameters and the stored snapshot. -/
def untouched_state (s : TrapManager) :
    List Trap × ℕ × CCDPhase × ℕ × ℕ × ℚ × ℕ × (ℕ × ℕ × List ℚ × List ℚ) × List ℚ :=
  (s.traps, s.max_n_transfers, s.ccd, s.n_traps, s.n_watermarks_per_transfer,
    s.empty_watermark, s.n_watermarks,
    (s.stored_n_active_watermarks, s.stored_i_first_active_wmk,
      s.stored_watermark_volumes, s.stored_watermark_fills),
    s.empty_probabilities_from_release)

theorem untouched_released (s : TrapManager) :
    untouched_state (n_electrons_released s).2 = untouched_state s := rfl

theorem untouched_update_full (s : TrapManager) (c : ℚ) (i : ℕ) :
    untouched_state (update_watermarks_full s c i) = untouched_state s := by
  unfold update_watermarks_full
  split
  · rfl
  · split
    · split <;> rfl
    · split
      · rfl
      · rfl

theorem untouched_update_enough (s : TrapManager) (c : ℚ) (i : ℕ) (e : ℚ) :
    untouched_state (update_watermarks_enough s c i e) = untouched_state s := by
  unfold update_watermarks_enough
  split
  · rfl
  · split
    · split <;> rfl
    · split
      · rfl
      · rfl

theorem untouched_captured {s : TrapManager} {n : ℚ} {p : ℚ × TrapManager}
    (h : n_electrons_captured s n = some p) :
    untouched_state p.2 = untouched_state s := by
  simp only [n_electrons_captured] at h
  split at h
  · cases h; rfl
  · split at h
    · cases h
    · split at h
      · cases h
        exact untouched_update_full ..
      · cases h
        exact untouched_update_enough ..

theorem untouched_rc {s : TrapManager} {n : ℚ} {p : ℚ × TrapManager}
    (h : n_electrons_released_and_captured s n = some p) :
    untouched_state p.2 = untouched_state s := by
  simp only [n_electrons_released_and_captured] at h
  split at h
  · cases h
  next p' hc =>
    cases h
    exact (untouched_captured hc).trans (untouched_released s)

theorem restore_restore (s : TrapManager) :
    restore_trap_states (restore_trap_states s) = restore_trap_states s := rfl

theorem watermark_state_restore_store (s : TrapManager) :
    watermark_state (restore_trap_states (store_trap_states s)) =
      watermark_state s := rfl

end TrapManager

/-- C7: for every manager state `x`, storing a snapshot, performing an
operation (`reset`, or a successful `release_and_capture`), and then
restoring returns the complete watermark state (volumes, fills, active
count, first-active index) to `x`'s; the snapshot is not consumed, so a
second restore yields the same state again. -/
theorem c7_snapshot_roundtrip (s : TrapManager) (q : ℚ) :
    TrapManager.watermark_state
      (TrapManager.restore_trap_states
        (TrapManager.reset_trap_states (TrapManager.store_trap_states s))) =
      TrapManager.watermark_state s ∧
    (∀ p, TrapManager.n_electrons_released_and_captured
        (TrapManager.store_trap_states s) q = some p →
      TrapManager.watermark_state (TrapManager.restore_trap_states p.2) =
        TrapManager.watermark_state s) ∧
    (∀ t : TrapManager, TrapManager.restore_trap_states
        (TrapManager.restore_trap_states t) = TrapManager.restore_trap_states t) := by
  refine ⟨rfl, fun p h => ?_, fun t => rfl⟩
  have hu := TrapManager.untouched_rc h
  unfold TrapManager.untouched_state at hu
  unfold TrapManager.watermark_state TrapManager.restore_trap_states
  simp only [Prod.mk.injEq] at hu ⊢
  obtain ⟨-, -, -, -, -, -, -, ⟨h1, h2, h3, h4⟩, -⟩ := hu
  exact ⟨h3, h4, h1, h2⟩

/-- Witness for C7 at a concrete state and input: the stored-then-evolved
manager restores to its pre-call watermark state. -/
theorem c7_snapshot_roundtrip_witness :
    ∃ p, TrapManager.n_electrons_released_and_captured
        (TrapManager.store_trap_states manager_a) (1/2) = some p ∧
      TrapManager.watermark_state (TrapManager.restore_trap_states p.2) =
        TrapManager.watermark_state manager_a := by
  have h := (c7_snapshot_roundtrip manager_a (1/2)).2.1
  refine ⟨((-1 : ℚ)/2,
    TrapManager.update_watermarks_full
      (TrapManager.store_trap_states manager_a) (1/2) 0), ?_, ?_⟩
  · decide
  · exact h _ (by decide)

/-- C9: for every trap species and dwell time `dt > 0`, the fill
probabilities computed by `set_fill_probabilities_from_dwell_time` are,
with `R = capture_rate + emission_rate`: `p_fill_from_empty = 1` for a
capture-instantaneous species (`capture_rate = 0`) and
`capture_rate * (1 - e^(-R*dt)) / R` otherwise; `p_fill_from_full =
1 - emission_rate * (1 - e^(-R*dt)) / R`; `p_release = e^(-emission_rate*dt)`;
and `p_empty_from_release = 1 - p_release`. -/
theorem c9_fill_probabilities (tr : TrapRates) (dwell_time : ℝ)
    (h : 0 < dwell_time) :
    fill_probabilities_from_dwell_time tr dwell_time =
      (if tr.capture_rate = 0 then 1 else
        tr.capture_rate *
          (1 - Real.exp (-(tr.capture_rate + tr.emission_rate) * dwell_time)) /
          (tr.capture_rate + tr.emission_rate),
       1 - tr.emission_rate *
          (1 - Real.exp (-(tr.capture_rate + tr.emission_rate) * dwell_time)) /
          (tr.capture_rate + tr.emission_rate),
       Real.exp (-tr.emission_rate * dwell_time),
       1 - Real.exp (-tr.emission_rate * dwell_time)) := by
  unfold fill_probabilities_from_dwell_time
  refine Prod.ext ?_ (Prod.ext ?_ (Prod.ext ?_ ?_)) <;>
    simp only [mul_div_assoc]

/-- Witness for C9 at the capture-instantaneous species with emission rate
1 and dwell time 1. -/
theorem c9_fill_probabilities_witness :
    0 < (1 : ℝ) ∧
    fill_probabilities_from_dwell_time ⟨0, 1⟩ 1 =
      (if (0 : ℝ) = 0 then 1 else
        0 * (1 - Real.exp (-(0 + 1) * 1)) / (0 + 1),
       1 - 1 * (1 - Real.exp (-(0 + 1) * 1)) / (0 + 1),
       Real.exp (-1 * 1),
       1 - Real.exp (-1 * 1)) :=
  ⟨by norm_num, c9_fill_probabilities ⟨0, 1⟩ 1 (by norm_num)⟩

namespace TrapManager

/-- Replace only the stored-snapshot fields of a manager (the fields on
which `reset` and a fresh `initialise` disagree). -/
def set_stored (s : TrapManager) (a b : ℕ) (v f : List ℚ) : TrapManager :=
  { s with
    stored_n_active_watermarks := a
    stored_i_first_active_wmk := b
    stored_watermark_volumes := v
    stored_watermark_fills := f }

theorem set_stored_self (s : TrapManager) :
    set_stored s s.stored_n_active_watermarks s.stored_i_first_active_wmk
      s.stored_watermark_volumes s.stored_watermark_fills = s := rfl

theorem watermark_state_set_stored (s : TrapManager) (a b : ℕ) (v f : List ℚ) :
    watermark_state (set_stored s a b v f) = watermark_state s := rfl

theorem released_set_stored (s : TrapManager) (a b : ℕ) (v f : List ℚ) :
    n_electrons_released (set_stored s a b v f) =
      ((n_electrons_released s).1,
        set_stored (n_electrons_released s).2 a b v f) := rfl

theorem update_full_set_stored (s : TrapManager) (a b : ℕ) (v f : List ℚ)
    (c : ℚ) (i : ℕ) :
    update_watermarks_full (set_stored s a b v f) c i =
      set_stored (update_watermarks_full s c i) a b v f := by
  unfold update_watermarks_full set_stored
  split
  · rfl
  · split
    · split <;> rfl
    · split
      · rfl
      · rfl

theorem update_enough_set_stored (s : TrapManager) (a b : ℕ) (v f : List ℚ)
    (c : ℚ) (i : ℕ) (e : ℚ) :
    update_watermarks_enough (set_stored s a b v f) c i e =
      set_stored (update_watermarks_enough s c i e) a b v f := by
  unfold update_watermarks_enough set_stored
  split
  · rfl
  · split
    · split <;> rfl
    · split
      · rfl
      · rfl

theorem set_stored_ccd (s : TrapManager) (a b : ℕ) (v f : List ℚ) :
    (set_stored s a b v f).ccd = s.ccd := rfl

theorem set_stored_volumes (s : TrapManager) (a b : ℕ) (v f : List ℚ) :
    (set_stored s a b v f).watermark_volumes = s.watermark_volumes := rfl

theorem wmk_index_set_stored (s : TrapManager) (a b : ℕ) (v f : List ℚ)
    (l : List ℚ) (c : ℚ) :
    watermark_index_above_cloud_from_volumes (set_stored s a b v f) l c =
      watermark_index_above_cloud_from_volumes s l c := rfl

theorem capture_count_set_stored (s : TrapManager) (a b : ℕ) (v f : List ℚ)
    (c : ℚ) (i : ℕ) :
    capture_count (set_stored s a b v f) c i = capture_count s c i := rfl

theorem captured_set_stored (s : TrapManager) (a b : ℕ) (v f : List ℚ) (n : ℚ) :
    n_electrons_captured (set_stored s a b v f) n =
      (n_electrons_captured s n).map (fun p => (p.1, set_stored p.2 a b v f)) := by
  simp only [n_electrons_captured, set_stored_ccd, set_stored_volumes,
    wmk_index_set_stored, capture_count_set_stored]
  split
  · rfl
  · split
    · rfl
    · split
      · simp [update_full_set_stored]
      · simp [update_enough_set_stored]

theorem rc_set_stored (s : TrapManager) (a b : ℕ) (v f : List ℚ) (n : ℚ) :
    n_electrons_released_and_captured (set_stored s a b v f) n =
      (n_electrons_released_and_captured s n).map
        (fun p => (p.1, set_stored p.2 a b v f)) := by
  simp only [n_electrons_released_and_captured, released_set_stored,
    captured_set_stored]
  cases n_electrons_captured (n_electrons_released s).2
    (n + (n_electrons_released s).1) <;> rfl

theorem reset_set_stored (s : TrapManager) (a b : ℕ) (v f : List ℚ) :
    reset_trap_states (set_stored s a b v f) =
      set_stored (reset_trap_states s) a b v f := rfl

theorem store_set_stored (s : TrapManager) (a b : ℕ) (v f : List ℚ) :
    store_trap_states (set_stored s a b v f) = store_trap_states s := rfl

/-- Apply a list of public operations, collecting the value returned by
each `release_and_capture` call (the externally visible behaviour of the
manager). -/
def run_ops_outputs (s : TrapManager) : List Op → Option (List ℚ × TrapManager)
  | [] => some ([], s)
  | .rc q :: ops =>
    (n_electrons_released_and_captured s q).bind
      (fun p => (run_ops_outputs p.2 ops).map (fun r => (p.1 :: r.1, r.2)))
  | .reset :: ops => run_ops_outputs (reset_trap_states s) ops
  | .store :: ops => run_ops_outputs (store_trap_states s) ops
  | .restore :: ops => run_ops_outputs (restore_trap_states s) ops

/-- Managers differing only in their stored snapshot produce the same
outputs and the same final watermark state under any restore-free
operation sequence (both failing together on a guarded division). -/
theorem run_outputs_set_stored : ∀ (ops : List Op), Op.restore ∉ ops →
    ∀ (s : TrapManager) (a b : ℕ) (v f : List ℚ),
    (run_ops_outputs (set_stored s a b v f) ops = none ∧
      run_ops_outputs s ops = none) ∨
    (∃ out t a1 b1 v1 f1, run_ops_outputs s ops = some (out, t) ∧
      run_ops_outputs (set_stored s a b v f) ops =
        some (out, set_stored t a1 b1 v1 f1))
  | [], _, s, a, b, v, f => .inr ⟨[], s, a, b, v, f, rfl, rfl⟩
  | .rc q :: ops, h, s, a, b, v, f => by
    have hmem : Op.restore ∉ ops := fun hc => h (List.mem_cons_of_mem _ hc)
    rcases hx : n_electrons_released_and_captured s q with _ | p
    · exact .inl ⟨by simp [run_ops_outputs, rc_set_stored, hx],
        by simp [run_ops_outputs, hx]⟩
    · rcases run_outputs_set_stored ops hmem p.2 a b v f with ⟨h1, h2⟩ |
        ⟨out, t, a1, b1, v1, f1, h1, h2⟩
      · exact .inl ⟨by simp [run_ops_outputs, rc_set_stored, hx, h1],
          by simp [run_ops_outputs, hx, h2]⟩
      · exact .inr ⟨p.1 :: out, t, a1, b1, v1, f1,
          by simp [run_ops_outputs, hx, h1],
          by simp [run_ops_outputs, rc_set_stored, hx, h2]⟩
  | .reset :: ops, h, s, a, b, v, f => by
    have hmem : Op.restore ∉ ops := fun hc => h (List.mem_cons_of_mem _ hc)
    have h1 := run_outputs_set_stored ops hmem (reset_trap_states s) a b v f
    rw [← reset_set_stored s a b v f] at h1
    exact h1
  | .store :: ops, h, s, a, b, v, f => by
    have key : run_ops_outputs (set_stored s a b v f) (.store :: ops) =
        run_ops_outputs s (.store :: ops) := by
      show run_ops_outputs (store_trap_states (set_stored s a b v f)) ops =
        run_ops_outputs (store_trap_states s) ops
      rw [store_set_stored]
    rcases hx : run_ops_outputs s (.store :: ops) with _ | ⟨out, t⟩
    · exact .inl ⟨key.trans hx, rfl⟩
    · exact .inr ⟨out, t, t.stored_n_active_watermarks,
        t.stored_i_first_active_wmk, t.stored_watermark_volumes,
        t.stored_watermark_fills, rfl, by rw [key, hx, set_stored_self]⟩
  | .restore :: _, h, _, _, _, _, _ => (h (List.mem_cons_self _ _)).elim

end TrapManager

/-- C6 (amended): for a manager whose configuration is consistent with the
instant-capture constructor (`empty_watermark = 0`,
`n_traps = traps.length`, `n_watermarks_per_transfer = 1`, buffers sized by
`initialise`), `reset()` yields the same four watermark-state fields as a
freshly `initialise`d manager of the same capacity, and the two managers
return identical values and watermark states under every subsequent
operation sequence that contains no `restore`. (The original claim fails
for sequences with `restore`: `initialise` stores an empty snapshot while
`reset` leaves the stored snapshot untouched; see the counterexample.) -/
theorem c6_reset_equivalence_amended (s : TrapManager)
    (h1 : s.empty_watermark = 0)
    (h2 : s.n_traps = s.traps.length)
    (h3 : s.n_watermarks_per_transfer = 1)
    (h4 : s.n_watermarks = s.max_n_transfers * s.n_watermarks_per_transfer + 1) :
    TrapManager.watermark_state (TrapManager.reset_trap_states s) =
      TrapManager.watermark_state
        (TrapManager.initialise_trap_states
          (TrapManager.mkInstantCapture s.traps s.max_n_transfers s.ccd
            s.empty_probabilities_from_release)) ∧
    ∀ ops : List Op, Op.restore ∉ ops →
      (TrapManager.run_ops_outputs (TrapManager.reset_trap_states s) ops).map
          (fun p => (p.1, TrapManager.watermark_state p.2)) =
        (TrapManager.run_ops_outputs
          (TrapManager.initialise_trap_states
            (TrapManager.mkInstantCapture s.traps s.max_n_transfers s.ccd
              s.empty_probabilities_from_release)) ops).map
          (fun p => (p.1, TrapManager.watermark_state p.2)) := by
  have key : TrapManager.reset_trap_states s =
      TrapManager.set_stored
        (TrapManager.initialise_trap_states
          (TrapManager.mkInstantCapture s.traps s.max_n_transfers s.ccd
            s.empty_probabilities_from_release))
        s.stored_n_active_watermarks s.stored_i_first_active_wmk
        s.stored_watermark_volumes s.stored_watermark_fills := by
    cases s with
    | mk traps max ccd nt npt ew N vols fills nA iF sa si sv sf ps =>
      dsimp at h1 h2 h3 h4
      subst h1 h2 h3 h4
      rfl
  constructor
  · rw [key, TrapManager.watermark_state_set_stored]
  · intro ops hnr
    rw [key]
    rcases TrapManager.run_outputs_set_stored ops hnr
        (TrapManager.initialise_trap_states
          (TrapManager.mkInstantCapture s.traps s.max_n_transfers s.ccd
            s.empty_probabilities_from_release))
        s.stored_n_active_watermarks s.stored_i_first_active_wmk
        s.stored_watermark_volumes s.stored_watermark_fills with
      ⟨ha, hb⟩ | ⟨out, t, a1, b1, v1, f1, ha, hb⟩
    · rw [ha, hb]
    · rw [ha, hb]
      simp [TrapManager.watermark_state_set_stored]

/-- Witness for C6 (amended) at the concrete manager `manager_a` and the
restore-free operation sequence `[rc 1, reset, store]`. -/
theorem c6_reset_equivalence_amended_witness :
    (manager_a.empty_watermark = 0 ∧
      manager_a.n_traps = manager_a.traps.length ∧
      manager_a.n_watermarks_per_transfer = 1 ∧
      manager_a.n_watermarks =
        manager_a.max_n_transfers * manager_a.n_watermarks_per_transfer + 1 ∧
      Op.restore ∉ [Op.rc 1, Op.reset, Op.store]) ∧
    (TrapManager.run_ops_outputs (TrapManager.reset_trap_states manager_a)
        [Op.rc 1, Op.reset, Op.store]).map
        (fun p => (p.1, TrapManager.watermark_state p.2)) =
      (TrapManager.run_ops_outputs
        (TrapManager.initialise_trap_states
          (TrapManager.mkInstantCapture manager_a.traps
            manager_a.max_n_transfers manager_a.ccd
            manager_a.empty_probabilities_from_release))
        [Op.rc 1, Op.reset, Op.store]).map
        (fun p => (p.1, TrapManager.watermark_state p.2)) :=
  ⟨⟨by decide, by decide, by decide, by decide, by decide⟩,
    (c6_reset_equivalence_amended manager_a (by decide) (by decide)
      (by decide) (by decide)).2 [Op.rc 1, Op.reset, Op.store] (by decide)⟩

namespace TrapManager

theorem getD_set_ne {i j : ℕ} (h : i ≠ j) (l : List ℚ) (v : ℚ) :
    (l.set i v).getD j 0 = l.getD j 0 := by
  simp [List.getElem?_set_ne h]

theorem getD_set_self {i : ℕ} {l : List ℚ} (h : i < l.length) (v : ℚ) :
    (l.set i v).getD i 0 = v := by
  simp [List.getElem?_set_self h]

theorem getD_set_char (l : List ℚ) (i j : ℕ) (v : ℚ) :
    (l.set i v).getD j 0 = if i = j ∧ j < l.length then v else l.getD j 0 := by
  split
  next h => exact h.1 ▸ getD_set_self (h.1 ▸ h.2) v
  next h =>
    rcases Decidable.em (i = j) with rfl | hne
    · have hj : ¬ i < l.length := fun hc => h ⟨rfl, hc⟩
      simp [List.getD_eq_getElem?_getD, List.getElem?_set_self',
        List.getElem?_eq_none (Nat.le_of_not_lt hj)]
    · exact getD_set_ne hne l v

theorem getD_replicate_zero (n j : ℕ) :
    (List.replicate n (0 : ℚ)).getD j 0 = 0 := by
  rcases Decidable.em (j < n) with h | h
  · simp [List.getD_eq_getElem?_getD, List.getElem?_replicate, h]
  · simp [List.getD_eq_getElem?_getD, List.getElem?_replicate, h]

theorem getD_of_length_le {l : List ℚ} {j : ℕ} (h : l.length ≤ j) :
    l.getD j 0 = 0 := by
  simp [List.getD_eq_getElem?_getD, List.getElem?_eq_none h]

@[simp] theorem length_set_cells_const (l : List ℚ) (start count : ℕ) (v : ℚ) :
    (set_cells_const l start count v).length = l.length := by
  induction count with
  | zero => rfl
  | succ k ih => simp [set_cells_const, ih]

theorem set_cells_const_getD (l : List ℚ) (start count : ℕ) (v : ℚ) (j : ℕ) :
    (set_cells_const l start count v).getD j 0 =
      if start ≤ j ∧ j < start + count ∧ j < l.length then v
      else l.getD j 0 := by
  induction count with
  | zero =>
    simp only [set_cells_const]
    have : ¬ (start ≤ j ∧ j < start + 0 ∧ j < l.length) := by omega
    rw [if_neg this]
  | succ k ih =>
    simp only [set_cells_const]
    rw [getD_set_char]
    simp only [length_set_cells_const]
    rcases Decidable.em (start + k = j ∧ j < l.length) with h | h
    · rw [if_pos h, if_pos (by omega)]
    · rw [if_neg h, ih]
      rcases Decidable.em (start ≤ j ∧ j < start + k ∧ j < l.length) with h2 | h2
      · rw [if_pos h2, if_pos (by omega)]
      · rw [if_neg h2, if_neg (by omega)]

@[simp] theorem length_blend_cells (l : List ℚ) (start count : ℕ) (e : ℚ) :
    (blend_cells l start count e).length = l.length := by
  induction count with
  | zero => rfl
  | succ k ih => simp [blend_cells, ih]

theorem blend_cells_getD (l : List ℚ) (start count : ℕ) (e : ℚ) (j : ℕ) :
    (blend_cells l start count e).getD j 0 =
      if start ≤ j ∧ j < start + count ∧ j < l.length then
        l.getD j 0 * (1 - e) + e
      else l.getD j 0 := by
  induction count with
  | zero =>
    simp only [blend_cells]
    have : ¬ (start ≤ j ∧ j < start + 0 ∧ j < l.length) := by omega
    rw [if_neg this]
  | succ k ih =>
    simp only [blend_cells]
    rw [getD_set_char]
    simp only [length_blend_cells]
    rcases Decidable.em (start + k = j ∧ j < l.length) with h | h
    · rw [if_pos h, if_pos (by omega), h.1, ih, if_neg (by omega)]
    · rw [if_neg h, ih]
      rcases Decidable.em (start ≤ j ∧ j < start + k ∧ j < l.length) with h2 | h2
      · rw [if_pos h2, if_pos (by omega)]
      · rw [if_neg h2, if_neg (by omega)]

@[simp] theorem length_copy_up_cells (l : List ℚ) (lo cnt : ℕ) :
    (copy_up_cells l lo cnt).length = l.length := by
  induction cnt with
  | zero => rfl
  | succ k ih => simp [copy_up_cells, ih]

theorem copy_up_cells_getD (l : List ℚ) (lo cnt : ℕ) (j : ℕ) :
    (copy_up_cells l lo cnt).getD j 0 =
      if lo + 1 ≤ j ∧ j ≤ lo + cnt ∧ j < l.length then l.getD (j - 1) 0
      else l.getD j 0 := by
  induction cnt with
  | zero =>
    simp only [copy_up_cells]
    have : ¬ (lo + 1 ≤ j ∧ j ≤ lo + 0 ∧ j < l.length) := by omega
    rw [if_neg this]
  | succ k ih =>
    simp only [copy_up_cells]
    rw [getD_set_char]
    simp only [length_copy_up_cells]
    rcases Decidable.em (lo + k + 1 = j ∧ j < l.length) with h | h
    · rw [if_pos h, if_pos (by omega)]
      have : j - 1 = lo + k := by omega
      rw [this]
    · rw [if_neg h, ih]
      rcases Decidable.em (lo + 1 ≤ j ∧ j ≤ lo + k ∧ j < l.length) with h2 | h2
      · rw [if_pos h2, if_pos (by omega)]
      · rw [if_neg h2, if_neg (by omega)]

end TrapManager

namespace TrapManager

/-- Helper: multiply both sides of a `≤` by a common factor on the right. -/
theorem mul_le_mul_right_nat {a b : ℕ} (k : ℕ) (h : a ≤ b) : a * k ≤ b * k :=
  Nat.mul_le_mul h (le_refl k)

/-- A buffer is clean above a threshold: every cell at index `T` or higher
holds the empty sentinel (reads beyond the buffer's length default to the
sentinel as well). -/
def vclean (l : List ℚ) (T : ℕ) : Prop :=
  ∀ j, T ≤ j → l.getD j 0 = 0

theorem vclean_mono {l : List ℚ} {a b : ℕ} (hab : a ≤ b) (h : vclean l a) :
    vclean l b :=
  fun j hj => h j (le_trans hab hj)

theorem vclean_set {l : List ℚ} {T i : ℕ} {v : ℚ} (h : vclean l T)
    (hv : T ≤ i → v = 0) : vclean (l.set i v) T := by
  intro j hj
  rw [getD_set_char]
  split
  next hc => exact hv (hc.1 ▸ hj)
  next => exact h j hj

theorem vclean_set_lt {l : List ℚ} {T i : ℕ} {v : ℚ} (h : vclean l T)
    (hi : i < T) : vclean (l.set i v) T :=
  vclean_set h (fun hT => absurd hT (by omega))

theorem vclean_replicate (n T : ℕ) : vclean (List.replicate n (0 : ℚ)) T :=
  fun j _ => getD_replicate_zero n j

theorem vclean_set_cells {l : List ℚ} {T start cnt : ℕ} {v : ℚ}
    (h : vclean l T) (hc : start + cnt ≤ T) :
    vclean (set_cells_const l start cnt v) T := by
  intro j hj
  rw [set_cells_const_getD, if_neg (by omega)]
  exact h j hj

theorem vclean_blend {l : List ℚ} {T start cnt : ℕ} {e : ℚ}
    (h : vclean l T) (hc : start + cnt ≤ T) :
    vclean (blend_cells l start cnt e) T := by
  intro j hj
  rw [blend_cells_getD, if_neg (by omega)]
  exact h j hj

/-- The copy-up loop shifts the clean region up by exactly one cell: a cell
written at or above `T + 1` is a copy of a cell at or above `T`, which is
the sentinel. -/
theorem vclean_copy_up_cells {l : List ℚ} {T : ℕ} (h : vclean l T)
    (lo cnt : ℕ) : vclean (copy_up_cells l lo cnt) (T + 1) := by
  intro j hj
  rw [copy_up_cells_getD]
  split
  next hc => exact h (j - 1) (by omega)
  next => exact h j (by omega)

theorem vclean_copy_row_go {fills : List ℚ} {nt T : ℕ}
    (hf : vclean fills T) {acc : List ℚ} (ha : vclean acc (T + nt))
    (src : ℕ) : ∀ m : ℕ,
      vclean (copy_up_rows.copy_row_go fills nt acc src m) (T + nt) := by
  intro m
  induction m with
  | zero => exact ha
  | succ k ih =>
    show vclean ((copy_up_rows.copy_row_go fills nt acc src k).set
      ((src + 1) * nt + k) (fills.getD (src * nt + k) 0)) (T + nt)
    apply vclean_set ih
    intro hw
    apply hf
    rw [Nat.succ_mul] at hw
    omega

theorem vclean_copy_row {fills : List ℚ} {nt T : ℕ}
    (hf : vclean fills T) {acc : List ℚ} (ha : vclean acc (T + nt))
    (src : ℕ) : vclean (copy_up_rows.copy_row fills nt acc src) (T + nt) := by
  cases nt with
  | zero => exact ha
  | succ t => exact vclean_copy_row_go hf ha src (t + 1)

/-- The row-wise copy-up loop shifts the clean region up by exactly one
row (`nt` cells). -/
theorem vclean_copy_up_rows {fills : List ℚ} {nt T : ℕ} (hf : vclean fills T)
    (lo cnt : ℕ) : vclean (copy_up_rows fills nt lo cnt) (T + nt) := by
  induction cnt with
  | zero => exact vclean_mono (by omega) hf
  | succ k ih => exact vclean_copy_row hf ih (lo + k)

end TrapManager

namespace TrapManager

/-- The search loop of `watermark_index_above_cloud_from_volumes` only ever
returns an index inside the range it scans. -/
theorem watermark_index_above_go_range (vols : List ℚ) (cloud : ℚ) :
    ∀ (k i : ℕ) (cum : ℚ) (j : ℕ),
      watermark_index_above_go vols cloud i cum k = some j → i ≤ j ∧ j < i + k := by
  intro k
  induction k with
  | zero => intro i cum j h; exact absurd h (by simp [watermark_index_above_go])
  | succ m ih =>
    intro i cum j h
    simp only [watermark_index_above_go] at h
    split at h
    · injection h with h2
      omega
    · have := ih (i + 1) _ j h
      omega

/-- Whether the loop finds an index or falls through to the (bare)
`n_active_watermarks`, the returned index is at most
`i_first_active_wmk + n_active_watermarks`. -/
theorem index_above_le (s : TrapManager) (cloud : ℚ) :
    watermark_index_above_cloud_from_volumes s s.watermark_volumes cloud ≤
      s.i_first_active_wmk + s.n_active_watermarks := by
  unfold watermark_index_above_cloud_from_volumes
  cases hgo : watermark_index_above_go s.watermark_volumes cloud
      s.i_first_active_wmk 0 s.n_active_watermarks with
  | none => simp only [Option.getD_none]; omega
  | some j =>
    have := watermark_index_above_go_range s.watermark_volumes cloud
      s.n_active_watermarks s.i_first_active_wmk 0 j hgo
    simp only [Option.getD_some]
    omega

/-- With at least one active watermark, the returned index is positive
unless the window starts at index 0. -/
theorem index_above_pos (s : TrapManager) (cloud : ℚ)
    (h : s.n_active_watermarks ≠ 0) :
    s.i_first_active_wmk = 0 ∨
      1 ≤ watermark_index_above_cloud_from_volumes s s.watermark_volumes cloud := by
  rcases Nat.eq_zero_or_pos s.i_first_active_wmk with h0 | h0
  · exact Or.inl h0
  · right
    unfold watermark_index_above_cloud_from_volumes
    cases hgo : watermark_index_above_go s.watermark_volumes cloud
        s.i_first_active_wmk 0 s.n_active_watermarks with
    | none => simp only [Option.getD_none]; omega
    | some j =>
      have := watermark_index_above_go_range s.watermark_volumes cloud
        s.n_active_watermarks s.i_first_active_wmk 0 j hgo
      simp only [Option.getD_some]
      omega

/-- The release loop over one watermark's species writes no fill cell at or
beyond `base + n`. -/
theorem release_traps_go_tail (d p : List ℚ) (base : ℕ) :
    ∀ (n : ℕ) (fills : List ℚ) (j : ℕ), base + n ≤ j →
      (release_traps_go d p base fills n).2.getD j 0 = fills.getD j 0 := by
  intro n
  induction n with
  | zero => intro fills j hj; rfl
  | succ m ih =>
    intro fills j hj
    rcases hgo : release_traps_go d p base fills m with ⟨acc, fl⟩
    simp only [release_traps_go, hgo]
    rw [getD_set_ne (by omega)]
    have h2 := ih fills j (by omega)
    rw [hgo] at h2
    exact h2

/-- The release loop over the active watermarks writes no fill cell at or
beyond row `i + k`. -/
theorem release_wmks_go_tail (d p v : List ℚ) (nt : ℕ) :
    ∀ (k i : ℕ) (fills : List ℚ) (j : ℕ), (i + k) * nt ≤ j →
      (release_wmks_go d p v nt fills i k).2.getD j 0 = fills.getD j 0 := by
  intro k
  induction k with
  | zero => intro i fills j hj; rfl
  | succ m ih =>
    intro i fills j hj
    have e1 : (i + (m + 1)) * nt = i * nt + m * nt + nt := by ring
    have e2 : (i + 1 + m) * nt = i * nt + m * nt + nt := by ring
    have e3 : (i + 1) * nt = i * nt + nt := by ring
    rcases h1 : release_traps_go d p (i * nt) fills nt with ⟨te, fl⟩
    rcases h2 : release_wmks_go d p v nt fl (i + 1) m with ⟨rest, fl2⟩
    simp only [release_wmks_go, h1, h2]
    have ha : fl.getD j 0 = fills.getD j 0 := by
      have h3 := release_traps_go_tail d p (i * nt) nt fills j (by omega)
      rw [h1] at h3
      exact h3
    have hb := ih (i + 1) fl j (by omega)
    rw [h2] at hb
    exact hb.trans ha

end TrapManager

namespace TrapManager

/-- The full-capture watermark update keeps every buffer cell at or above
the (new) top of the active window at the sentinel, for any state whose
buffers were clean above the old top. -/
theorem vclean_update_full {s : TrapManager} {cloud : ℚ} {ia : ℕ}
    (hv : vclean s.watermark_volumes
      (s.i_first_active_wmk + s.n_active_watermarks))
    (hf : vclean s.watermark_fills
      ((s.i_first_active_wmk + s.n_active_watermarks) * s.n_traps))
    (hia1 : ia ≤ s.i_first_active_wmk + s.n_active_watermarks)
    (hia2 : s.n_active_watermarks ≠ 0 → s.i_first_active_wmk = 0 ∨ 1 ≤ ia) :
    vclean (update_watermarks_full s cloud ia).watermark_volumes
      ((update_watermarks_full s cloud ia).i_first_active_wmk +
        (update_watermarks_full s cloud ia).n_active_watermarks) ∧
    vclean (update_watermarks_full s cloud ia).watermark_fills
      (((update_watermarks_full s cloud ia).i_first_active_wmk +
          (update_watermarks_full s cloud ia).n_active_watermarks) *
        (update_watermarks_full s cloud ia).n_traps) := by
  unfold update_watermarks_full
  dsimp only
  split_ifs with h1 h2 h3 h4
  all_goals try dsimp only
  · -- first capture: n_active_watermarks = 0
    refine ⟨?_, ?_⟩
    · exact vclean_set_lt (vclean_mono (by omega) hv) (by omega)
    · simp only [set_row_const]
      apply vclean_set_cells
      · exact vclean_mono (mul_le_mul_right_nat _ (by omega)) hf
      · have e : (s.i_first_active_wmk + (s.n_active_watermarks + 1)) *
            s.n_traps = s.i_first_active_wmk * s.n_traps +
            s.n_active_watermarks * s.n_traps + s.n_traps := by ring
        have e2 : 0 * s.n_traps = 0 := by ring
        omega
  · -- cloud below the whole stack, room to the left
    refine ⟨?_, ?_⟩
    · exact vclean_set_lt (vclean_set_lt (vclean_mono (by omega) hv)
        (by omega)) (by omega)
    · simp only [set_row_const]
      apply vclean_set_cells
      · exact vclean_mono (mul_le_mul_right_nat _ (by omega)) hf
      · have e : (s.i_first_active_wmk - 1) * s.n_traps + s.n_traps =
            (s.i_first_active_wmk - 1 + 1) * s.n_traps := by ring
        rw [e]
        exact mul_le_mul_right_nat _ (by omega)
  · -- cloud below the whole stack, shift everything up one cell
    refine ⟨?_, ?_⟩
    · exact vclean_set_lt (vclean_set_lt
        (vclean_mono (by omega) (vclean_copy_up_cells hv _ _)) (by omega))
        (by omega)
    · simp only [set_row_const]
      apply vclean_set_cells
      · have hb : (s.i_first_active_wmk + s.n_active_watermarks) * s.n_traps +
            s.n_traps ≤ (s.i_first_active_wmk + (s.n_active_watermarks + 1)) *
            s.n_traps := by
          have e : (s.i_first_active_wmk + (s.n_active_watermarks + 1)) *
              s.n_traps = (s.i_first_active_wmk + s.n_active_watermarks) *
              s.n_traps + s.n_traps := by ring
          omega
        exact vclean_mono hb (vclean_copy_up_rows hf _ _)
      · have e : (s.i_first_active_wmk + (s.n_active_watermarks + 1)) *
            s.n_traps = s.i_first_active_wmk * s.n_traps +
            s.n_active_watermarks * s.n_traps + s.n_traps := by ring
        omega
  · -- cloud above the whole stack
    refine ⟨?_, ?_⟩
    · exact vclean_set_lt (vclean_mono (by omega) hv) (by omega)
    · simp only [set_row_const]
      apply vclean_set_cells
      · exact vclean_mono (mul_le_mul_right_nat _ (by omega)) hf
      · have e : (ia - 1 + 1) * s.n_traps = (ia - 1) * s.n_traps +
            s.n_traps := by ring
        omega
  · -- cloud between watermarks
    have hge : 1 ≤ ia := by rcases hia2 h1 with h0 | h0 <;> omega
    have hlt : ia < s.i_first_active_wmk + s.n_active_watermarks := by omega
    refine ⟨?_, ?_⟩
    · exact vclean_set_lt (vclean_set_lt (vclean_mono (by omega) hv)
        (by omega)) (by omega)
    · simp only [set_row_const]
      apply vclean_set_cells
      · exact vclean_mono (mul_le_mul_right_nat _ (by omega)) hf
      · have e : (ia - 1) * s.n_traps + s.n_traps =
            (ia - 1 + 1) * s.n_traps := by ring
        rw [e]
        exact mul_le_mul_right_nat _ (by omega)

/-- The partial-capture watermark update keeps every buffer cell at or
above the (new) top of the active window at the sentinel, for any state
whose buffers were clean above the old top; the extra cells moved by the
overlong shift loop are copies of sentinel cells. -/
theorem vclean_update_enough {s : TrapManager} {cloud : ℚ} {ia : ℕ} {e : ℚ}
    (hv : vclean s.watermark_volumes
      (s.i_first_active_wmk + s.n_active_watermarks))
    (hf : vclean s.watermark_fills
      ((s.i_first_active_wmk + s.n_active_watermarks) * s.n_traps))
    (hia1 : ia ≤ s.i_first_active_wmk + s.n_active_watermarks) :
    vclean (update_watermarks_enough s cloud ia e).watermark_volumes
      ((update_watermarks_enough s cloud ia e).i_first_active_wmk +
        (update_watermarks_enough s cloud ia e).n_active_watermarks) ∧
    vclean (update_watermarks_enough s cloud ia e).watermark_fills
      (((update_watermarks_enough s cloud ia e).i_first_active_wmk +
          (update_watermarks_enough s cloud ia e).n_active_watermarks) *
        (update_watermarks_enough s cloud ia e).n_traps) := by
  unfold update_watermarks_enough
  dsimp only
  split_ifs with h1 h2 h3 h4
  all_goals try dsimp only
  · -- first capture
    refine ⟨?_, ?_⟩
    · exact vclean_set_lt (vclean_mono (by omega) hv) (by omega)
    · simp only [set_row_const]
      apply vclean_set_cells
      · exact vclean_mono (mul_le_mul_right_nat _ (by omega)) hf
      · have he : (s.i_first_active_wmk + (s.n_active_watermarks + 1)) *
            s.n_traps = s.i_first_active_wmk * s.n_traps +
            s.n_active_watermarks * s.n_traps + s.n_traps := by ring
        have he2 : 0 * s.n_traps = 0 := by ring
        omega
  · -- cloud below the whole stack, room to the left
    refine ⟨?_, ?_⟩
    · exact vclean_set_lt (vclean_set_lt (vclean_mono (by omega) hv)
        (by omega)) (by omega)
    · apply vclean_blend
      · exact vclean_mono (mul_le_mul_right_nat _ (by omega)) hf
      · have he : (s.i_first_active_wmk - 1) * s.n_traps + s.n_traps =
            (s.i_first_active_wmk - 1 + 1) * s.n_traps := by ring
        rw [he]
        exact mul_le_mul_right_nat _ (by omega)
  · -- cloud below the whole stack, shift everything up one cell
    refine ⟨?_, ?_⟩
    · exact vclean_set_lt (vclean_set_lt
        (vclean_mono (by omega) (vclean_copy_up_cells hv _ _)) (by omega))
        (by omega)
    · apply vclean_blend
      · have hb : (s.i_first_active_wmk + s.n_active_watermarks) * s.n_traps +
            s.n_traps ≤ (s.i_first_active_wmk + (s.n_active_watermarks + 1)) *
            s.n_traps := by
          have he : (s.i_first_active_wmk + (s.n_active_watermarks + 1)) *
              s.n_traps = (s.i_first_active_wmk + s.n_active_watermarks) *
              s.n_traps + s.n_traps := by ring
          omega
        exact vclean_mono hb (vclean_copy_up_rows hf _ _)
      · have he : (s.i_first_active_wmk + (s.n_active_watermarks + 1)) *
            s.n_traps = s.i_first_active_wmk * s.n_traps +
            s.n_active_watermarks * s.n_traps + s.n_traps := by ring
        omega
  · -- cloud above the whole stack
    refine ⟨?_, ?_⟩
    · exact vclean_set_lt (vclean_mono (by omega) hv) (by omega)
    · apply vclean_blend
      · exact vclean_mono (mul_le_mul_right_nat _ (by omega)) hf
      · have he : (s.i_first_active_wmk + (s.n_active_watermarks + 1)) *
            s.n_traps = s.i_first_active_wmk * s.n_traps +
            s.n_active_watermarks * s.n_traps + s.n_traps := by ring
        have he2 : (s.n_active_watermarks + 1) * s.n_traps =
            s.n_active_watermarks * s.n_traps + s.n_traps := by ring
        omega
  · -- cloud between watermarks
    have hlt : ia < s.i_first_active_wmk + s.n_active_watermarks := by omega
    refine ⟨?_, ?_⟩
    · exact vclean_set_lt (vclean_set_lt
        (vclean_mono (by omega) (vclean_copy_up_cells hv _ _)) (by omega))
        (by omega)
    · apply vclean_blend
      · have hb : (s.i_first_active_wmk + s.n_active_watermarks) * s.n_traps +
            s.n_traps ≤ (s.i_first_active_wmk + (s.n_active_watermarks + 1)) *
            s.n_traps := by
          have he : (s.i_first_active_wmk + (s.n_active_watermarks + 1)) *
              s.n_traps = (s.i_first_active_wmk + s.n_active_watermarks) *
              s.n_traps + s.n_traps := by ring
          omega
        exact vclean_mono hb (vclean_copy_up_rows hf _ _)
      · have he : s.i_first_active_wmk * s.n_traps +
            (ia + 1 - s.i_first_active_wmk) * s.n_traps =
            (s.i_first_active_wmk + (ia + 1 - s.i_first_active_wmk)) *
            s.n_traps := by ring
        rw [he]
        exact mul_le_mul_right_nat _ (by omega)

end TrapManager

namespace TrapManager

/-- Both live buffers are clean above the top of the active window, both
stored buffers are clean above the top of the stored window, and the empty
sentinel is the default `0.0`. -/
def CleanState (s : TrapManager) : Prop :=
  s.empty_watermark = 0 ∧
  vclean s.watermark_volumes (s.i_first_active_wmk + s.n_active_watermarks) ∧
  vclean s.watermark_fills
    ((s.i_first_active_wmk + s.n_active_watermarks) * s.n_traps) ∧
  vclean s.stored_watermark_volumes
    (s.stored_i_first_active_wmk + s.stored_n_active_watermarks) ∧
  vclean s.stored_watermark_fills
    ((s.stored_i_first_active_wmk + s.stored_n_active_watermarks) * s.n_traps)

theorem untouched_fields {a b : TrapManager}
    (h : untouched_state a = untouched_state b) :
    a.n_traps = b.n_traps ∧ a.empty_watermark = b.empty_watermark ∧
    a.n_watermarks = b.n_watermarks ∧
    a.stored_n_active_watermarks = b.stored_n_active_watermarks ∧
    a.stored_i_first_active_wmk = b.stored_i_first_active_wmk ∧
    a.stored_watermark_volumes = b.stored_watermark_volumes ∧
    a.stored_watermark_fills = b.stored_watermark_fills :=
  ⟨congrArg (fun u => u.2.2.2.1) h, congrArg (fun u => u.2.2.2.2.2.1) h,
    congrArg (fun u => u.2.2.2.2.2.2.1) h,
    congrArg (fun u => u.2.2.2.2.2.2.2.1.1) h,
    congrArg (fun u => u.2.2.2.2.2.2.2.1.2.1) h,
    congrArg (fun u => u.2.2.2.2.2.2.2.1.2.2.1) h,
    congrArg (fun u => u.2.2.2.2.2.2.2.1.2.2.2) h⟩

theorem cleanState_of_parts {t s : TrapManager}
    (hq : untouched_state t = untouched_state s) (hc : CleanState s)
    (hv : vclean t.watermark_volumes
      (t.i_first_active_wmk + t.n_active_watermarks))
    (hf : vclean t.watermark_fills
      ((t.i_first_active_wmk + t.n_active_watermarks) * t.n_traps)) :
    CleanState t := by
  obtain ⟨hnt, hew, hnw, hsa, hsi, hsv, hsf⟩ := untouched_fields hq
  exact ⟨hew.trans hc.1, hv, hf,
    by rw [hsv, hsi, hsa]; exact hc.2.2.2.1,
    by rw [hsf, hsi, hsa, hnt]; exact hc.2.2.2.2⟩

theorem clean_captured {s : TrapManager} {n : ℚ} {p : ℚ × TrapManager}
    (h : n_electrons_captured s n = some p) (hc : CleanState s) :
    CleanState p.2 := by
  have hq := untouched_captured h
  simp only [n_electrons_captured] at h
  split at h
  · cases h; exact hc
  · split at h
    · cases h
    · split at h
      · cases h
        exact cleanState_of_parts hq hc
          (vclean_update_full hc.2.1 hc.2.2.1 (index_above_le s _)
            (index_above_pos s _)).1
          (vclean_update_full hc.2.1 hc.2.2.1 (index_above_le s _)
            (index_above_pos s _)).2
      · cases h
        exact cleanState_of_parts hq hc
          (vclean_update_enough hc.2.1 hc.2.2.1 (index_above_le s _)).1
          (vclean_update_enough hc.2.1 hc.2.2.1 (index_above_le s _)).2

theorem clean_rc {s : TrapManager} {q : ℚ} {p : ℚ × TrapManager}
    (h : n_electrons_released_and_captured s q = some p) (hc : CleanState s) :
    CleanState p.2 := by
  simp only [n_electrons_released_and_captured] at h
  split at h
  · cases h
  next p2 hcap =>
    cases h
    apply clean_captured hcap
    refine ⟨hc.1, hc.2.1, ?_, hc.2.2.2.1, hc.2.2.2.2⟩
    intro j hj
    exact (release_wmks_go_tail (s.traps.map Trap.density)
      s.empty_probabilities_from_release s.watermark_volumes s.n_traps
      s.n_active_watermarks s.i_first_active_wmk s.watermark_fills j hj).trans
      (hc.2.2.1 j hj)

theorem clean_run_op {s t : TrapManager} {op : Op}
    (h : run_op s op = some t) (hc : CleanState s) : CleanState t := by
  cases op with
  | rc q =>
    simp only [run_op, Option.map_eq_some'] at h
    obtain ⟨p, hp, ht⟩ := h
    exact ht ▸ clean_rc hp hc
  | reset =>
    simp only [run_op] at h
    cases h
    unfold CleanState reset_trap_states
    dsimp only
    refine ⟨hc.1, ?_, ?_, hc.2.2.2.1, hc.2.2.2.2⟩
    · rw [hc.1]; exact vclean_replicate _ _
    · rw [hc.1]; exact vclean_replicate _ _
  | store =>
    simp only [run_op] at h
    cases h
    unfold CleanState store_trap_states
    dsimp only
    exact ⟨hc.1, hc.2.1, hc.2.2.1, hc.2.1, hc.2.2.1⟩
  | restore =>
    simp only [run_op] at h
    cases h
    unfold CleanState restore_trap_states
    dsimp only
    exact ⟨hc.1, hc.2.2.2.1, hc.2.2.2.2, hc.2.2.2.1, hc.2.2.2.2⟩

theorem clean_run_ops : ∀ (ops : List Op) {s t : TrapManager},
    run_ops s ops = some t → CleanState s → CleanState t := by
  intro ops
  induction ops with
  | nil => intro s t h hc; cases h; exact hc
  | cons op ops ih =>
    intro s t h hc
    simp only [run_ops] at h
    split at h
    · cases h
    next s1 h1 =>
      exact ih h (clean_run_op h1 hc)

theorem cleanState_initialise (traps : List Trap) (m : ℕ) (c : CCDPhase)
    (eps : List ℚ) :
    CleanState (initialise_trap_states (mkInstantCapture traps m c eps)) := by
  unfold CleanState initialise_trap_states store_trap_states mkInstantCapture
  dsimp only
  exact ⟨rfl, vclean_replicate _ _, vclean_replicate _ _,
    vclean_replicate _ _, vclean_replicate _ _⟩

theorem aboveClean_of_cleanState {s : TrapManager} (h : CleanState s) :
    AboveClean s :=
  ⟨fun j _ hj => h.2.1 j hj, fun j _ hj => h.2.2.1 j hj,
    fun j _ hj => h.2.2.2.1 j hj, fun j _ hj => h.2.2.2.2 j hj⟩

end TrapManager

/-- The state reached from a freshly initialised single-species manager
(density 1, release probability 1/2, `max_n_transfers = 2`) by one
`release_and_capture` call with `n_free = 1/2`. -/
def c5_final_state : TrapManager :=
  { TrapManager.mkInstantCapture [⟨1⟩] 2 ⟨1, 0, 1⟩ [1/2] with
    n_watermarks := 3
    watermark_volumes := [1/2, 0, 0]
    watermark_fills := [1, 0, 0]
    n_active_watermarks := 1
    i_first_active_wmk := 0
    stored_watermark_volumes := [0, 0, 0]
    stored_watermark_fills := [0, 0, 0] }

/-- C5 (amended): the spec claims every cell outside the active window
holds the empty sentinel after every public operation; the counterexample
`c5_stale_cell_below_window` shows a capture that skips past lower
watermarks leaves a stale non-zero fill *below* the window. What the code
does maintain, from any initialised manager through any sequence of public
operations (`release_and_capture`, `reset`, `store`, `restore`), is the
*upper* half of the claim: every live and stored buffer cell at or above
the top of its active window (index `i_first_active_wmk +
n_active_watermarks`, scaled by `n_traps` for the fill buffer) holds the
empty sentinel `0.0`. -/
theorem c5_above_window_sentinel (traps : List Trap) (m : ℕ) (c : CCDPhase)
    (eps : List ℚ) (ops : List Op) (t : TrapManager)
    (h : TrapManager.run_ops
      (TrapManager.initialise_trap_states
        (TrapManager.mkInstantCapture traps m c eps)) ops = some t) :
    TrapManager.AboveClean t :=
  TrapManager.aboveClean_of_cleanState
    (TrapManager.clean_run_ops ops h (TrapManager.cleanState_initialise traps m c eps))

theorem c5_above_window_sentinel_witness :
    TrapManager.run_ops
      (TrapManager.initialise_trap_states
        (TrapManager.mkInstantCapture [⟨1⟩] 2 ⟨1, 0, 1⟩ [1/2]))
      [Op.rc (1/2)] = some c5_final_state ∧
    TrapManager.AboveClean c5_final_state :=
  ⟨by decide, c5_above_window_sentinel [⟨1⟩] 2 ⟨1, 0, 1⟩ [1/2] [Op.rc (1/2)]
    c5_final_state (by decide)⟩

/-! ### Summation algebra for the conservation proof -/

theorem sumN_congr {f g : ℕ → ℚ} : ∀ {n : ℕ}, (∀ k, k < n → f k = g k) →
    sumN f n = sumN g n := by
  intro n
  induction n with
  | zero => intro h; rfl
  | succ m ih =>
    intro h
    simp only [sumN]
    rw [ih (fun k hk => h k (by omega)), h m (by omega)]

theorem sumN_zero_fun (n : ℕ) : sumN (fun _ => (0 : ℚ)) n = 0 := by
  induction n with
  | zero => rfl
  | succ m ih => simp only [sumN]; rw [ih]; ring

theorem sumN_add (f g : ℕ → ℚ) (n : ℕ) :
    sumN (fun k => f k + g k) n = sumN f n + sumN g n := by
  induction n with
  | zero => simp [sumN]
  | succ m ih => simp only [sumN]; rw [ih]; ring

theorem sumN_sub (f g : ℕ → ℚ) (n : ℕ) :
    sumN (fun k => f k - g k) n = sumN f n - sumN g n := by
  induction n with
  | zero => simp [sumN]
  | succ m ih => simp only [sumN]; rw [ih]; ring

theorem sumN_mul_left (c : ℚ) (f : ℕ → ℚ) (n : ℕ) :
    sumN (fun k => c * f k) n = c * sumN f n := by
  induction n with
  | zero => simp [sumN]
  | succ m ih => simp only [sumN]; rw [ih]; ring

theorem sumN_mul_right (f : ℕ → ℚ) (c : ℚ) (n : ℕ) :
    sumN (fun k => f k * c) n = sumN f n * c := by
  induction n with
  | zero => simp [sumN]
  | succ m ih => simp only [sumN]; rw [ih]; ring

theorem sumN_split (f : ℕ → ℚ) (m : ℕ) : ∀ k : ℕ,
    sumN f (m + k) = sumN f m + sumN (fun j => f (m + j)) k := by
  intro k
  induction k with
  | zero => simp [sumN]
  | succ j ih =>
    have e : m + (j + 1) = (m + j) + 1 := by omega
    rw [e]
    simp only [sumN]
    rw [ih]
    ring

theorem sumN_head (f : ℕ → ℚ) (n : ℕ) :
    sumN f (n + 1) = f 0 + sumN (fun k => f (k + 1)) n := by
  induction n with
  | zero => simp [sumN]
  | succ m ih =>
    show sumN f (m + 1) + f (m + 1) = _
    rw [ih]
    simp only [sumN]
    ring

theorem sumN_swap (f : ℕ → ℕ → ℚ) (m : ℕ) : ∀ n : ℕ,
    sumN (fun t => sumN (f t) n) m =
      sumN (fun k => sumN (fun t => f t k) m) n := by
  intro n
  induction n with
  | zero => exact (sumN_congr fun k _ => rfl).trans (sumN_zero_fun m)
  | succ j ih =>
    simp only [sumN]
    rw [← ih, ← sumN_add]

namespace TrapManager

/-- The density-weighted fill mass of one watermark row: `Σ_t fills[k * nt
+ t] * dens t`. -/
def row_sum (fills : List ℚ) (nt : ℕ) (dens : ℕ → ℚ) (k : ℕ) : ℚ :=
  sumN (fun t => fills.getD (k * nt + t) 0 * dens t) nt

/-- A watermark's capture capacity is the total density minus its
density-weighted fill mass. -/
theorem capture_capacity_eq (nt : ℕ) (dens : ℕ → ℚ) (fills : List ℚ)
    (i : ℕ) :
    capture_capacity nt dens fills i = sumN dens nt - row_sum fills nt dens i := by
  unfold capture_capacity row_sum
  rw [← sumN_sub]
  exact sumN_congr (fun t _ => by ring)

theorem density_map_getD (s : TrapManager) (t : ℕ) :
    (s.traps.map Trap.density).getD t 0 = s.density t := by
  unfold density
  rw [List.getD_eq_getElem?_getD, List.getD_eq_getElem?_getD, List.getElem?_map]
  cases s.traps[t]? <;> rfl

theorem cell_lt_len {k t nt N : ℕ} (hk : k < N) (ht : t < nt) :
    k * nt + t < nt * N := by
  calc k * nt + t < k * nt + nt := by omega
    _ = (k + 1) * nt := by ring
    _ ≤ N * nt := mul_le_mul_right_nat _ (by omega)
    _ = nt * N := by ring

/-- `n_trapped_electrons_from_watermarks` as a single sum over the active
window of per-row masses times fractional volumes. -/
theorem n_trapped_closed (s : TrapManager) (v f : List ℚ) :
    n_trapped_electrons_from_watermarks s v f =
      sumN (fun k => row_sum f s.n_traps s.density (s.i_first_active_wmk + k) *
        v.getD (s.i_first_active_wmk + k) 0) s.n_active_watermarks := by
  unfold n_trapped_electrons_from_watermarks row_sum
  split
  next h => rw [h]; rfl
  next h =>
    exact (sumN_congr (fun t _ => (sumN_mul_right _ _ _).symm)).trans
      ((sumN_swap _ _ _).trans (sumN_congr (fun k _ =>
        (sumN_congr (fun t _ => by ring)).trans (sumN_mul_right _ _ _))))

theorem sum_cells_head (l : List ℚ) : ∀ (j i : ℕ),
    sum_cells l i (j + 1) = l.getD i 0 + sum_cells l (i + 1) j := by
  intro j
  induction j with
  | zero => intro i; simp [sum_cells, sumN]
  | succ m ih =>
    intro i
    show sum_cells l i (m + 1 + 1) = _
    simp only [sum_cells, sumN] at *
    rw [ih i, show i + (m + 1) = i + 1 + m from by omega]
    ring

theorem sum_cells_zero_tail (l : List ℚ) (n : ℕ) :
    sum_cells l 0 (n + 1) = sum_cells l 0 n + l.getD n 0 := by
  simp only [sum_cells, sumN, Nat.zero_add]

end TrapManager

namespace TrapManager

theorem length_copy_row_go (fills : List ℚ) (nt : ℕ) (acc : List ℚ)
    (src : ℕ) : ∀ m : ℕ,
    (copy_up_rows.copy_row_go fills nt acc src m).length = acc.length := by
  intro m
  induction m with
  | zero => rfl
  | succ k ih =>
    show ((copy_up_rows.copy_row_go fills nt acc src k).set
      ((src + 1) * nt + k) (fills.getD (src * nt + k) 0)).length = acc.length
    rw [List.length_set, ih]

theorem length_copy_row (fills : List ℚ) (nt : ℕ) (acc : List ℚ) (src : ℕ) :
    (copy_up_rows.copy_row fills nt acc src).length = acc.length := by
  cases nt with
  | zero => rfl
  | succ t => exact length_copy_row_go fills (t + 1) acc src (t + 1)

theorem length_copy_up_rows (fills : List ℚ) (nt lo : ℕ) : ∀ cnt : ℕ,
    (copy_up_rows fills nt lo cnt).length = fills.length := by
  intro cnt
  induction cnt with
  | zero => rfl
  | succ k ih =>
    show (copy_up_rows.copy_row fills nt (copy_up_rows fills nt lo k)
      (lo + k)).length = fills.length
    rw [length_copy_row, ih]

theorem copy_row_go_getD (fills : List ℚ) (nt : ℕ) (acc : List ℚ)
    (src : ℕ) : ∀ (m j : ℕ),
    (copy_up_rows.copy_row_go fills nt acc src m).getD j 0 =
      if (src + 1) * nt ≤ j ∧ j < (src + 1) * nt + m ∧ j < acc.length then
        fills.getD (j - nt) 0
      else acc.getD j 0 := by
  intro m
  induction m with
  | zero => intro j; rw [if_neg (by omega)]; rfl
  | succ k ih =>
    intro j
    show ((copy_up_rows.copy_row_go fills nt acc src k).set
      ((src + 1) * nt + k) (fills.getD (src * nt + k) 0)).getD j 0 = _
    rw [getD_set_char, length_copy_row_go]
    rcases Decidable.em ((src + 1) * nt + k = j ∧ j < acc.length) with h | h
    · rw [if_pos h, if_pos (by omega)]
      have e : (src + 1) * nt = src * nt + nt := by ring
      have e2 : j - nt = src * nt + k := by omega
      rw [e2]
    · rw [if_neg h, ih j]
      rcases Decidable.em ((src + 1) * nt ≤ j ∧ j < (src + 1) * nt + k ∧
          j < acc.length) with h2 | h2
      · rw [if_pos h2, if_pos (by omega)]
      · rw [if_neg h2, if_neg (by omega)]

theorem copy_row_getD (fills : List ℚ) (nt : ℕ) (acc : List ℚ)
    (src j : ℕ) :
    (copy_up_rows.copy_row fills nt acc src).getD j 0 =
      if (src + 1) * nt ≤ j ∧ j < (src + 2) * nt ∧ j < acc.length then
        fills.getD (j - nt) 0
      else acc.getD j 0 := by
  cases nt with
  | zero =>
    show acc.getD j 0 = _
    rw [if_neg (by omega)]
  | succ t =>
    show (copy_up_rows.copy_row_go fills (t + 1) acc src (t + 1)).getD j 0 = _
    rw [copy_row_go_getD]
    have e : (src + 1) * (t + 1) + (t + 1) = (src + 2) * (t + 1) := by ring
    rw [e]

/-- Cell-level characterization of the row-wise copy-up loop: cells in rows
`lo + 1 .. lo + cnt` (and inside the buffer) hold the cell one row below in
the original buffer; all other cells are unchanged. -/
theorem copy_up_rows_getD (fills : List ℚ) (nt lo : ℕ) : ∀ (cnt j : ℕ),
    (copy_up_rows fills nt lo cnt).getD j 0 =
      if (lo + 1) * nt ≤ j ∧ j < (lo + cnt + 1) * nt ∧ j < fills.length then
        fills.getD (j - nt) 0
      else fills.getD j 0 := by
  intro cnt
  induction cnt with
  | zero =>
    intro j
    rw [if_neg (by
      have e : (lo + 0 + 1) * nt = (lo + 1) * nt := by ring
      omega)]
    rfl
  | succ k ih =>
    intro j
    show (copy_up_rows.copy_row fills nt (copy_up_rows fills nt lo k)
      (lo + k)).getD j 0 = _
    rw [copy_row_getD, length_copy_up_rows, ih j]
    have e1 : (lo + k + 1) * nt = lo * nt + k * nt + nt := by ring
    have e2 : (lo + k + 2) * nt = lo * nt + k * nt + nt + nt := by ring
    have e3 : (lo + 1) * nt = lo * nt + nt := by ring
    have e4 : (lo + (k + 1) + 1) * nt = lo * nt + k * nt + nt + nt := by ring
    rcases Decidable.em ((lo + k + 1) * nt ≤ j ∧ j < (lo + k + 2) * nt ∧
        j < fills.length) with h | h
    · rw [if_pos h, if_pos (by omega)]
    · rw [if_neg h]
      rcases Decidable.em ((lo + 1) * nt ≤ j ∧ j < (lo + k + 1) * nt ∧
          j < fills.length) with h2 | h2
      · rw [if_pos h2, if_pos (by omega)]
      · rw [if_neg h2, if_neg (by omega)]

/-- Rows at or below `lo` are untouched by the row-wise copy-up loop. -/
theorem row_sum_copy_rows_low (fills : List ℚ) (nt : ℕ) (dens : ℕ → ℚ)
    (lo cnt r : ℕ) (h : r ≤ lo) :
    row_sum (copy_up_rows fills nt lo cnt) nt dens r =
      row_sum fills nt dens r := by
  unfold row_sum
  refine sumN_congr (fun t ht => ?_)
  rw [copy_up_rows_getD, if_neg (by
    have e1 : (r + 1) * nt = r * nt + nt := by ring
    have e2 : (lo + 1) * nt = lo * nt + nt := by ring
    have e5 : r * nt ≤ lo * nt := mul_le_mul_right_nat _ h
    omega)]

/-- Rows `lo + 1 .. lo + cnt` of the copied buffer are the rows one below
in the original buffer. -/
theorem row_sum_copy_rows_shift (fills : List ℚ) (nt : ℕ) (dens : ℕ → ℚ)
    (lo cnt r : ℕ) (h1 : lo + 1 ≤ r) (h2 : r ≤ lo + cnt)
    (hlen : r * nt + nt ≤ fills.length) :
    row_sum (copy_up_rows fills nt lo cnt) nt dens r =
      row_sum fills nt dens (r - 1) := by
  obtain ⟨r0, rfl⟩ : ∃ r0, r = r0 + 1 := ⟨r - 1, by omega⟩
  unfold row_sum
  refine sumN_congr (fun t ht => ?_)
  have e1 : (r0 + 1) * nt = r0 * nt + nt := by ring
  have e2 : (lo + 1) * nt = lo * nt + nt := by ring
  have e3 : (lo + cnt + 1) * nt = lo * nt + cnt * nt + nt := by ring
  have e4 : lo * nt ≤ r0 * nt := mul_le_mul_right_nat _ (by omega)
  have e5 : r0 * nt + nt ≤ lo * nt + cnt * nt := by
    have h9 := mul_le_mul_right_nat nt (show r0 + 1 ≤ lo + cnt from by omega)
    have e6 : (lo + cnt) * nt = lo * nt + cnt * nt := by ring
    omega
  rw [copy_up_rows_getD, if_pos (by omega)]
  have e7 : (r0 + 1) * nt + t - nt = r0 * nt + t := by omega
  have e8 : r0 + 1 - 1 = r0 := by omega
  rw [e7, e8]

/-- A row whose cells all lie inside the written slice of
`set_cells_const` reads back the constant. -/
theorem row_sum_set_cells_in (fills : List ℚ) (nt : ℕ) (dens : ℕ → ℚ)
    (v : ℚ) (start count k : ℕ) (h1 : start ≤ k * nt)
    (h2 : k * nt + nt ≤ start + count) (hlen : k * nt + nt ≤ fills.length) :
    row_sum (set_cells_const fills start count v) nt dens k =
      v * sumN dens nt := by
  unfold row_sum
  rw [← sumN_mul_left]
  refine sumN_congr (fun t ht => ?_)
  rw [set_cells_const_getD, if_pos (by omega)]

/-- A row whose cells all lie outside the written slice of
`set_cells_const` is unchanged. -/
theorem row_sum_set_cells_out (fills : List ℚ) (nt : ℕ) (dens : ℕ → ℚ)
    (v : ℚ) (start count k : ℕ)
    (h : start + count ≤ k * nt ∨ k * nt + nt ≤ start) :
    row_sum (set_cells_const fills start count v) nt dens k =
      row_sum fills nt dens k := by
  unfold row_sum
  refine sumN_congr (fun t ht => ?_)
  rw [set_cells_const_getD, if_neg (by omega)]

/-- A row whose cells all lie inside the blended slice has its
density-weighted mass blended toward the total density. -/
theorem row_sum_blend_in (fills : List ℚ) (nt : ℕ) (dens : ℕ → ℚ) (e : ℚ)
    (start count k : ℕ) (h1 : start ≤ k * nt)
    (h2 : k * nt + nt ≤ start + count) (hlen : k * nt + nt ≤ fills.length) :
    row_sum (blend_cells fills start count e) nt dens k =
      (1 - e) * row_sum fills nt dens k + e * sumN dens nt := by
  unfold row_sum
  rw [← sumN_mul_left, ← sumN_mul_left, ← sumN_add]
  refine sumN_congr (fun t ht => ?_)
  rw [blend_cells_getD, if_pos (by omega)]
  ring

/-- A row whose cells all lie outside the blended slice is unchanged. -/
theorem row_sum_blend_out (fills : List ℚ) (nt : ℕ) (dens : ℕ → ℚ) (e : ℚ)
    (start count k : ℕ)
    (h : start + count ≤ k * nt ∨ k * nt + nt ≤ start) :
    row_sum (blend_cells fills start count e) nt dens k =
      row_sum fills nt dens k := by
  unfold row_sum
  refine sumN_congr (fun t ht => ?_)
  rw [blend_cells_getD, if_neg (by omega)]

end TrapManager

theorem sumN_tail (f : ℕ → ℚ) (n : ℕ) : sumN f (n + 1) = sumN f n + f n := rfl

namespace TrapManager

/-- Closed form of the counting loop of `n_electrons_captured`: each
watermark contributes its capacity times its width, the one at
`i_wmk_above_cloud` contributing the remaining width up to the cloud. -/
theorem capture_count_go_closed (nt : ℕ) (dens : ℕ → ℚ) (fills vols : List ℚ)
    (cloud : ℚ) (ia : ℕ) : ∀ (k i : ℕ) (cum : ℚ),
    capture_count_go nt dens fills vols cloud ia i cum k =
      sumN (fun j => capture_capacity nt dens fills (i + j) *
        (if i + j = ia then cloud - (cum + sum_cells vols i j)
         else vols.getD (i + j) 0)) k := by
  intro k
  induction k with
  | zero => intro i cum; rfl
  | succ m ih =>
    intro i cum
    rw [sumN_head]
    show (if i = ia then capture_capacity nt dens fills i * (cloud - cum)
      else capture_capacity nt dens fills i * (cum + vols.getD i 0 - cum)) +
      capture_count_go nt dens fills vols cloud ia (i + 1)
        (cum + vols.getD i 0) m = _
    rw [ih (i + 1) (cum + vols.getD i 0)]
    congr 1
    · simp only [Nat.add_zero]
      show _ = capture_capacity nt dens fills i *
        (if i = ia then cloud - (cum + sum_cells vols i 0) else vols.getD i 0)
      have h0 : sum_cells vols i 0 = 0 := rfl
      rw [h0]
      rcases Decidable.em (i = ia) with h | h
      · rw [if_pos h, if_pos h]; ring
      · rw [if_neg h, if_neg h]; ring
    · refine sumN_congr (fun j hj => ?_)
      rw [show i + (j + 1) = i + 1 + j from by omega, sum_cells_head vols j i]
      have e : cloud - (cum + (vols.getD i 0 + sum_cells vols (i + 1) j)) =
          cloud - (cum + vols.getD i 0 + sum_cells vols (i + 1) j) := by ring
      rw [e]

/-- The counting loop started at watermark 0 with zero cumulative volume
(the `i_first_active_wmk = 0` case), fully expanded. -/
theorem capture_count_closed_zero (nt : ℕ) (dens : ℕ → ℚ)
    (fills vols : List ℚ) (cloud : ℚ) (ia : ℕ) :
    capture_count_go nt dens fills vols cloud ia 0 0 (ia + 1) =
      sumN dens nt * sum_cells vols 0 ia -
        sumN (fun j => row_sum fills nt dens j * vols.getD j 0) ia +
        (sumN dens nt - row_sum fills nt dens ia) *
          (cloud - sum_cells vols 0 ia) := by
  rw [capture_count_go_closed, sumN_tail]
  have h2 : sum_cells vols 0 ia = sumN (fun j => vols.getD j 0) ia :=
    sumN_congr (fun j hj => by rw [Nat.zero_add])
  have hsum : sumN (fun j => capture_capacity nt dens fills (0 + j) *
      (if 0 + j = ia then cloud - (0 + sum_cells vols 0 j)
       else vols.getD (0 + j) 0)) ia =
      sumN dens nt * sum_cells vols 0 ia -
        sumN (fun j => row_sum fills nt dens j * vols.getD j 0) ia := by
    have h1 : ∀ j, j < ia → capture_capacity nt dens fills (0 + j) *
        (if 0 + j = ia then cloud - (0 + sum_cells vols 0 j)
         else vols.getD (0 + j) 0) =
        sumN dens nt * vols.getD j 0 - row_sum fills nt dens j *
          vols.getD j 0 := by
      intro j hj
      simp only [Nat.zero_add]
      rw [if_neg (by omega), capture_capacity_eq]
      ring
    rw [sumN_congr h1, sumN_sub, sumN_mul_left, ← h2]
  rw [hsum]
  rw [if_pos (show 0 + ia = ia from by omega), capture_capacity_eq]
  simp only [Nat.zero_add]
  ring

end TrapManager

namespace TrapManager

theorem length_release_traps_go (d p : List ℚ) (base : ℕ) :
    ∀ (n : ℕ) (fills : List ℚ),
    (release_traps_go d p base fills n).2.length = fills.length := by
  intro n
  induction n with
  | zero => intro fills; rfl
  | succ m ih =>
    intro fills
    rcases hgo : release_traps_go d p base fills m with ⟨acc, fl⟩
    simp only [release_traps_go, hgo]
    rw [List.length_set]
    have h2 := ih fills
    rw [hgo] at h2
    exact h2

theorem length_release_wmks_go (d p v : List ℚ) (nt : ℕ) :
    ∀ (k i : ℕ) (fills : List ℚ),
    (release_wmks_go d p v nt fills i k).2.length = fills.length := by
  intro k
  induction k with
  | zero => intro i fills; rfl
  | succ m ih =>
    intro i fills
    rcases h1 : release_traps_go d p (i * nt) fills nt with ⟨te, fl⟩
    rcases hw : release_wmks_go d p v nt fl (i + 1) m with ⟨rest, fl2⟩
    simp only [release_wmks_go, h1, hw]
    have h2 := ih (i + 1) fl
    rw [hw] at h2
    have h3 := length_release_traps_go d p (i * nt) nt fills
    rw [h1] at h3
    exact h2.trans h3

theorem release_traps_go_head (d p : List ℚ) (base : ℕ) :
    ∀ (n : ℕ) (fills : List ℚ) (j : ℕ), j < base →
    (release_traps_go d p base fills n).2.getD j 0 = fills.getD j 0 := by
  intro n
  induction n with
  | zero => intro fills j hj; rfl
  | succ m ih =>
    intro fills j hj
    rcases hgo : release_traps_go d p base fills m with ⟨acc, fl⟩
    simp only [release_traps_go, hgo]
    rw [getD_set_ne (by omega)]
    have h2 := ih fills j hj
    rw [hgo] at h2
    exact h2

theorem release_wmks_go_head (d p v : List ℚ) (nt : ℕ) :
    ∀ (k i : ℕ) (fills : List ℚ) (j : ℕ), j < i * nt →
    (release_wmks_go d p v nt fills i k).2.getD j 0 = fills.getD j 0 := by
  intro k
  induction k with
  | zero => intro i fills j hj; rfl
  | succ m ih =>
    intro i fills j hj
    rcases h1 : release_traps_go d p (i * nt) fills nt with ⟨te, fl⟩
    rcases hw : release_wmks_go d p v nt fl (i + 1) m with ⟨rest, fl2⟩
    simp only [release_wmks_go, h1, hw]
    have e : (i + 1) * nt = i * nt + nt := by ring
    have h2 := ih (i + 1) fl j (by omega)
    rw [hw] at h2
    have h3 := release_traps_go_head d p (i * nt) nt fills j hj
    rw [h1] at h3
    exact h2.trans h3

theorem release_traps_go_val (d p : List ℚ) (base : ℕ) :
    ∀ (n : ℕ) (fills : List ℚ),
    (release_traps_go d p base fills n).1 =
      sumN (fun t => fills.getD (base + t) 0 * p.getD t 0 * d.getD t 0) n := by
  intro n
  induction n with
  | zero => intro fills; rfl
  | succ m ih =>
    intro fills
    rcases hgo : release_traps_go d p base fills m with ⟨acc, fl⟩
    simp only [release_traps_go, hgo]
    rw [sumN_tail]
    have hacc : acc = sumN (fun t => fills.getD (base + t) 0 * p.getD t 0 *
        d.getD t 0) m := by
      have h2 := ih fills
      rw [hgo] at h2
      exact h2
    have hfl : fl.getD (base + m) 0 = fills.getD (base + m) 0 := by
      have h2 := release_traps_go_tail d p base m fills (base + m) (by omega)
      rw [hgo] at h2
      exact h2
    rw [hacc, hfl]

theorem release_traps_go_cell (d p : List ℚ) (base : ℕ) :
    ∀ (n : ℕ) (fills : List ℚ) (t : ℕ), t < n → base + t < fills.length →
    (release_traps_go d p base fills n).2.getD (base + t) 0 =
      fills.getD (base + t) 0 - fills.getD (base + t) 0 * p.getD t 0 := by
  intro n
  induction n with
  | zero => intro fills t ht hlen; exact absurd ht (by omega)
  | succ m ih =>
    intro fills t ht hlen
    rcases hgo : release_traps_go d p base fills m with ⟨acc, fl⟩
    simp only [release_traps_go, hgo]
    rcases Decidable.em (t = m) with h0 | h0
    · subst h0
      have hl : fl.length = fills.length := by
        have h2 := length_release_traps_go d p base t fills
        rw [hgo] at h2
        exact h2
      have hfl : fl.getD (base + t) 0 = fills.getD (base + t) 0 := by
        have h2 := release_traps_go_tail d p base t fills (base + t) (by omega)
        rw [hgo] at h2
        exact h2
      rw [getD_set_self (by omega), hfl]
    · rw [getD_set_ne (by omega)]
      have h2 := ih fills t (by omega) hlen
      rw [hgo] at h2
      exact h2

theorem release_wmks_go_val (d p v : List ℚ) (nt : ℕ) :
    ∀ (k i : ℕ) (fills : List ℚ),
    (release_wmks_go d p v nt fills i k).1 =
      sumN (fun m => sumN (fun t => fills.getD ((i + m) * nt + t) 0 *
        p.getD t 0 * d.getD t 0) nt * v.getD (i + m) 0) k := by
  intro k
  induction k with
  | zero => intro i fills; rfl
  | succ m ih =>
    intro i fills
    rcases h1 : release_traps_go d p (i * nt) fills nt with ⟨te, fl⟩
    rcases hw : release_wmks_go d p v nt fl (i + 1) m with ⟨rest, fl2⟩
    simp only [release_wmks_go, h1, hw]
    rw [sumN_head]
    congr 1
    · have hte : te = sumN (fun t => fills.getD (i * nt + t) 0 * p.getD t 0 *
          d.getD t 0) nt := by
        have h2 := release_traps_go_val d p (i * nt) nt fills
        rw [h1] at h2
        exact h2
      rw [hte]
      simp only [Nat.add_zero]
    · have hrest : rest = sumN (fun j => sumN (fun t =>
          fl.getD ((i + 1 + j) * nt + t) 0 * p.getD t 0 * d.getD t 0) nt *
          v.getD (i + 1 + j) 0) m := by
        have h2 := ih (i + 1) fl
        rw [hw] at h2
        exact h2
      rw [hrest]
      refine sumN_congr (fun j hj => ?_)
      rw [show i + (j + 1) = i + 1 + j from by omega]
      congr 1
      refine sumN_congr (fun t ht2 => ?_)
      have h3 : fl.getD ((i + 1 + j) * nt + t) 0 =
          fills.getD ((i + 1 + j) * nt + t) 0 := by
        have h9 := release_traps_go_tail d p (i * nt) nt fills
          ((i + 1 + j) * nt + t) (by
            have e : (i + 1 + j) * nt = i * nt + nt + j * nt := by ring
            omega)
        rw [h1] at h9
        exact h9
      rw [h3]

theorem release_wmks_go_cell (d p v : List ℚ) (nt : ℕ) :
    ∀ (k i : ℕ) (fills : List ℚ) (m t : ℕ), m < k → t < nt →
    (i + m) * nt + t < fills.length →
    (release_wmks_go d p v nt fills i k).2.getD ((i + m) * nt + t) 0 =
      fills.getD ((i + m) * nt + t) 0 -
        fills.getD ((i + m) * nt + t) 0 * p.getD t 0 := by
  intro k
  induction k with
  | zero => intro i fills m t hm ht hlen; exact absurd hm (by omega)
  | succ kk ih =>
    intro i fills m t hm ht hlen
    rcases h1 : release_traps_go d p (i * nt) fills nt with ⟨te, fl⟩
    rcases hw : release_wmks_go d p v nt fl (i + 1) kk with ⟨rest, fl2⟩
    simp only [release_wmks_go, h1, hw]
    have hlenf : fl.length = fills.length := by
      have h2 := length_release_traps_go d p (i * nt) nt fills
      rw [h1] at h2
      exact h2
    rcases Decidable.em (m = 0) with h0 | h0
    · subst h0
      simp only [Nat.add_zero] at hlen ⊢
      have e : (i + 1) * nt = i * nt + nt := by ring
      have h2 := release_wmks_go_head d p v nt kk (i + 1) fl (i * nt + t)
        (by omega)
      rw [hw] at h2
      rw [h2]
      have h3 := release_traps_go_cell d p (i * nt) nt fills t ht (by omega)
      rw [h1] at h3
      exact h3
    · obtain ⟨m0, rfl⟩ : ∃ m0, m = m0 + 1 := ⟨m - 1, by omega⟩
      rw [show i + (m0 + 1) = i + 1 + m0 from by omega] at hlen ⊢
      have h9 := ih (i + 1) fl m0 t (by omega) ht (by omega)
      rw [hw] at h9
      rw [h9]
      have h10 : fl.getD ((i + 1 + m0) * nt + t) 0 =
          fills.getD ((i + 1 + m0) * nt + t) 0 := by
        have h11 := release_traps_go_tail d p (i * nt) nt fills
          ((i + 1 + m0) * nt + t) (by
            have e : (i + 1 + m0) * nt = i * nt + nt + m0 * nt := by ring
            omega)
        rw [h1] at h11
        exact h11
      rw [h10]

end TrapManager

theorem sumN_blend_expand (R V : ℕ → ℚ) (e D : ℚ) (n : ℕ) :
    sumN (fun k => ((1 - e) * R k + e * D) * V k) n =
      (1 - e) * sumN (fun k => R k * V k) n + e * D * sumN V n := by
  induction n with
  | zero => simp [sumN]
  | succ m ih => simp only [sumN]; rw [ih]; ring

namespace TrapManager

theorem sum_cells_zero_eq (l : List ℚ) (n : ℕ) :
    sum_cells l 0 n = sumN (fun k => l.getD k 0) n :=
  sumN_congr (fun k _ => by rw [Nat.zero_add])

theorem row_bound {k nt L N : ℕ} (hk : k < N) (hL : L = nt * N) :
    k * nt + nt ≤ L := by
  subst hL
  have h1 := mul_le_mul_right_nat nt (show k + 1 ≤ N from by omega)
  have e1 : (k + 1) * nt = k * nt + nt := by ring
  have e2 : N * nt = nt * N := by ring
  omega

end TrapManager

namespace TrapManager

/-- Abbreviation for the statements below: the closed form of the counting
loop when the active window starts at index 0. -/
def ncap_closed (s : TrapManager) (cloud : ℚ) (ia : ℕ) : ℚ :=
  sumN s.density s.n_traps * sum_cells s.watermark_volumes 0 ia -
    sumN (fun j => row_sum s.watermark_fills s.n_traps s.density j *
      s.watermark_volumes.getD j 0) ia +
    (sumN s.density s.n_traps -
      row_sum s.watermark_fills s.n_traps s.density ia) *
      (cloud - sum_cells s.watermark_volumes 0 ia)

theorem dens_update_full (s : TrapManager) (cloud : ℚ) (ia : ℕ) :
    (update_watermarks_full s cloud ia).density = s.density := by
  have ht : (update_watermarks_full s cloud ia).traps = s.traps :=
    congrArg (fun u => u.1) (untouched_update_full s cloud ia)
  funext t
  unfold density
  rw [ht]

theorem nt_update_full (s : TrapManager) (cloud : ℚ) (ia : ℕ) :
    (update_watermarks_full s cloud ia).n_traps = s.n_traps :=
  congrArg (fun u => u.2.2.2.1) (untouched_update_full s cloud ia)

theorem dens_update_enough (s : TrapManager) (cloud : ℚ) (ia : ℕ) (e : ℚ) :
    (update_watermarks_enough s cloud ia e).density = s.density := by
  have ht : (update_watermarks_enough s cloud ia e).traps = s.traps :=
    congrArg (fun u => u.1) (untouched_update_enough s cloud ia e)
  funext t
  unfold density
  rw [ht]

theorem nt_update_enough (s : TrapManager) (cloud : ℚ) (ia : ℕ) (e : ℚ) :
    (update_watermarks_enough s cloud ia e).n_traps = s.n_traps :=
  congrArg (fun u => u.2.2.2.1) (untouched_update_enough s cloud ia e)

/-- Conservation of the full-capture update, first-capture branch. -/
theorem conserve_full_first (s : TrapManager) (cloud : ℚ) (ia : ℕ)
    (ncap : ℚ) (h0 : s.i_first_active_wmk = 0)
    (hlv : s.watermark_volumes.length = s.n_watermarks)
    (hlf : s.watermark_fills.length = s.n_traps * s.n_watermarks)
    (hroom : s.n_active_watermarks < s.n_watermarks)
    (hfz : ∀ j, s.n_active_watermarks * s.n_traps ≤ j →
      s.watermark_fills.getD j 0 = 0)
    (hb1 : s.n_active_watermarks = 0) (hia : ia = 0)
    (hNC : ncap = ncap_closed s cloud ia) :
    n_trapped_electrons_from_watermarks (update_watermarks_full s cloud ia)
      (update_watermarks_full s cloud ia).watermark_volumes
      (update_watermarks_full s cloud ia).watermark_fills =
      n_trapped_electrons_from_watermarks s s.watermark_volumes
        s.watermark_fills + ncap := by
  subst hia
  rw [n_trapped_closed, n_trapped_closed, dens_update_full, nt_update_full,
    hNC]
  unfold update_watermarks_full ncap_closed
  dsimp only
  split_ifs
  · simp only [set_row_const, h0, hb1, Nat.zero_add]
    simp only [sumN, sum_cells]
    have hfz0 := hfz
    rw [hb1] at hfz0
    have hR0 : row_sum s.watermark_fills s.n_traps s.density 0 = 0 := by
      unfold row_sum
      refine (sumN_congr (fun t ht => ?_)).trans (sumN_zero_fun s.n_traps)
      rw [hfz0 (0 * s.n_traps + t) (by omega)]
      ring
    rw [hR0]
    rw [row_sum_set_cells_in s.watermark_fills s.n_traps s.density 1
      (0 * s.n_traps) s.n_traps 0 (by omega) (by omega)
      (row_bound (by omega) hlf)]
    rw [getD_set_self (by rw [hlv]; omega)]
    ring

end TrapManager

namespace TrapManager

/-- Conservation of the partial-capture update, first-capture branch. -/
theorem conserve_enough_first (s : TrapManager) (cloud : ℚ) (ia : ℕ)
    (ncap e : ℚ) (h0 : s.i_first_active_wmk = 0)
    (hlv : s.watermark_volumes.length = s.n_watermarks)
    (hlf : s.watermark_fills.length = s.n_traps * s.n_watermarks)
    (hroom : s.n_active_watermarks < s.n_watermarks)
    (hfz : ∀ j, s.n_active_watermarks * s.n_traps ≤ j →
      s.watermark_fills.getD j 0 = 0)
    (hb1 : s.n_active_watermarks = 0) (hia : ia = 0)
    (hNC : ncap = ncap_closed s cloud ia) :
    n_trapped_electrons_from_watermarks (update_watermarks_enough s cloud ia e)
      (update_watermarks_enough s cloud ia e).watermark_volumes
      (update_watermarks_enough s cloud ia e).watermark_fills =
      n_trapped_electrons_from_watermarks s s.watermark_volumes
        s.watermark_fills + ncap * e := by
  subst hia
  rw [n_trapped_closed, n_trapped_closed, dens_update_enough,
    nt_update_enough, hNC]
  unfold update_watermarks_enough ncap_closed
  dsimp only
  split_ifs
  · simp only [set_row_const, h0, hb1, Nat.zero_add]
    simp only [sumN, sum_cells]
    have hfz0 := hfz
    rw [hb1] at hfz0
    have hR0 : row_sum s.watermark_fills s.n_traps s.density 0 = 0 := by
      unfold row_sum
      refine (sumN_congr (fun t ht => ?_)).trans (sumN_zero_fun s.n_traps)
      rw [hfz0 (0 * s.n_traps + t) (by omega)]
      ring
    rw [hR0]
    rw [row_sum_set_cells_in s.watermark_fills s.n_traps s.density e
      (0 * s.n_traps) s.n_traps 0 (by omega) (by omega)
      (row_bound (by omega) hlf)]
    rw [getD_set_self (by rw [hlv]; omega)]
    ring

end TrapManager

namespace TrapManager

/-- Conservation of the full-capture update, cloud-below-stack branch
(shift everything up one watermark). -/
theorem conserve_full_shift (s : TrapManager) (cloud : ℚ) (ia : ℕ)
    (ncap : ℚ) (h0 : s.i_first_active_wmk = 0)
    (hlv : s.watermark_volumes.length = s.n_watermarks)
    (hlf : s.watermark_fills.length = s.n_traps * s.n_watermarks)
    (hroom : s.n_active_watermarks < s.n_watermarks)
    (hb1 : ¬ s.n_active_watermarks = 0)
    (hb2 : ia = s.i_first_active_wmk)
    (hb3 : ¬ 0 < s.i_first_active_wmk)
    (hNC : ncap = ncap_closed s cloud ia) :
    n_trapped_electrons_from_watermarks (update_watermarks_full s cloud ia)
      (update_watermarks_full s cloud ia).watermark_volumes
      (update_watermarks_full s cloud ia).watermark_fills =
      n_trapped_electrons_from_watermarks s s.watermark_volumes
        s.watermark_fills + ncap := by
  have hia : ia = 0 := by omega
  subst hia
  rw [n_trapped_closed, n_trapped_closed, dens_update_full, nt_update_full,
    hNC]
  unfold update_watermarks_full ncap_closed
  dsimp only
  split_ifs
  obtain ⟨nA0, hnA0⟩ : ∃ m, s.n_active_watermarks = m + 1 :=
    ⟨s.n_active_watermarks - 1, by omega⟩
  simp only [set_row_const, h0, Nat.zero_add]
  rw [hnA0]
  rw [show sum_cells s.watermark_volumes 0 0 = (0 : ℚ) from rfl]
  rw [show sumN (fun k => row_sum s.watermark_fills s.n_traps s.density k *
    s.watermark_volumes.getD k 0) 0 = (0 : ℚ) from rfl]
  set A := copy_up_cells s.watermark_volumes 0 (nA0 + 1 + 1) with hA
  set Af := copy_up_rows s.watermark_fills s.n_traps 0 (nA0 + 1 + 1) with hAf
  simp only [sumN_head, Nat.zero_add]
  have hlA : A.length = s.n_watermarks := by
    rw [hA, length_copy_up_cells, hlv]
  have hA1 : A.getD 1 0 = s.watermark_volumes.getD 0 0 := by
    rw [hA, copy_up_cells_getD,
      if_pos ⟨by omega, by omega, by rw [hlv]; omega⟩]
  have hV0 : ((A.set 0 cloud).set 1 (A.getD 1 0 - cloud)).getD 0 0 =
      cloud := by
    rw [getD_set_ne (by omega), getD_set_self (by rw [hlA]; omega)]
  have hV1 : ((A.set 0 cloud).set 1 (A.getD 1 0 - cloud)).getD 1 0 =
      s.watermark_volumes.getD 0 0 - cloud := by
    rw [getD_set_self (by rw [List.length_set, hlA]; omega), hA1]
  have hR0 : row_sum (set_cells_const Af (0 * s.n_traps) s.n_traps 1)
      s.n_traps s.density 0 = 1 * sumN s.density s.n_traps := by
    refine row_sum_set_cells_in _ _ _ _ _ _ _ (by omega) (by omega) ?_
    rw [hAf, length_copy_up_rows]
    exact row_bound (by omega) hlf
  have hR1 : row_sum (set_cells_const Af (0 * s.n_traps) s.n_traps 1)
      s.n_traps s.density 1 =
      row_sum s.watermark_fills s.n_traps s.density 0 := by
    rw [row_sum_set_cells_out _ _ _ _ _ _ _ (by omega), hAf,
      row_sum_copy_rows_shift s.watermark_fills s.n_traps s.density 0
        (nA0 + 1 + 1) 1 (by omega) (by omega) (row_bound (by omega) hlf)]
  have htail : sumN (fun k =>
      row_sum (set_cells_const Af (0 * s.n_traps) s.n_traps 1) s.n_traps
        s.density (k + 1 + 1) *
      ((A.set 0 cloud).set 1 (A.getD 1 0 - cloud)).getD (k + 1 + 1) 0) nA0 =
      sumN (fun k => row_sum s.watermark_fills s.n_traps s.density (k + 1) *
        s.watermark_volumes.getD (k + 1) 0) nA0 := by
    refine sumN_congr (fun k hk => ?_)
    rw [getD_set_ne (by omega), getD_set_ne (by omega), hA,
      copy_up_cells_getD, if_pos ⟨by omega, by omega, by rw [hlv]; omega⟩,
      show k + 1 + 1 - 1 = k + 1 from by omega]
    rw [row_sum_set_cells_out _ _ _ _ _ _ _ (Or.inl (by
      have hm := mul_le_mul_right_nat s.n_traps
        (show 1 ≤ k + 1 + 1 from by omega)
      omega))]
    rw [hAf, row_sum_copy_rows_shift s.watermark_fills s.n_traps s.density 0
      (nA0 + 1 + 1) (k + 1 + 1) (by omega) (by omega)
      (row_bound (by omega) hlf),
      show k + 1 + 1 - 1 = k + 1 from by omega]
  rw [hV0, hV1, hR0, hR1, htail]
  ring

end TrapManager

namespace TrapManager

/-- Conservation of the partial-capture update, cloud-below-stack branch. -/
theorem conserve_enough_shift (s : TrapManager) (cloud : ℚ) (ia : ℕ)
    (ncap e : ℚ) (h0 : s.i_first_active_wmk = 0)
    (hlv : s.watermark_volumes.length = s.n_watermarks)
    (hlf : s.watermark_fills.length = s.n_traps * s.n_watermarks)
    (hroom : s.n_active_watermarks < s.n_watermarks)
    (hb1 : ¬ s.n_active_watermarks = 0)
    (hb2 : ia = s.i_first_active_wmk)
    (hb3 : ¬ 0 < s.i_first_active_wmk)
    (hNC : ncap = ncap_closed s cloud ia) :
    n_trapped_electrons_from_watermarks (update_watermarks_enough s cloud ia e)
      (update_watermarks_enough s cloud ia e).watermark_volumes
      (update_watermarks_enough s cloud ia e).watermark_fills =
      n_trapped_electrons_from_watermarks s s.watermark_volumes
        s.watermark_fills + ncap * e := by
  have hia : ia = 0 := by omega
  subst hia
  rw [n_trapped_closed, n_trapped_closed, dens_update_enough,
    nt_update_enough, hNC]
  unfold update_watermarks_enough ncap_closed
  dsimp only
  split_ifs
  obtain ⟨nA0, hnA0⟩ : ∃ m, s.n_active_watermarks = m + 1 :=
    ⟨s.n_active_watermarks - 1, by omega⟩
  simp only [h0, Nat.zero_add]
  rw [hnA0]
  rw [show sum_cells s.watermark_volumes 0 0 = (0 : ℚ) from rfl]
  rw [show sumN (fun k => row_sum s.watermark_fills s.n_traps s.density k *
    s.watermark_volumes.getD k 0) 0 = (0 : ℚ) from rfl]
  set A := copy_up_cells s.watermark_volumes 0 (nA0 + 1 + 1) with hA
  set Af := copy_up_rows s.watermark_fills s.n_traps 0 (nA0 + 1 + 1) with hAf
  simp only [sumN_head, Nat.zero_add]
  have hlA : A.length = s.n_watermarks := by
    rw [hA, length_copy_up_cells, hlv]
  have hlAf : Af.length = s.watermark_fills.length := by
    rw [hAf, length_copy_up_rows]
  have hA1 : A.getD 1 0 = s.watermark_volumes.getD 0 0 := by
    rw [hA, copy_up_cells_getD,
      if_pos ⟨by omega, by omega, by rw [hlv]; omega⟩]
  have hV0 : ((A.set 0 cloud).set 1 (A.getD 1 0 - cloud)).getD 0 0 =
      cloud := by
    rw [getD_set_ne (by omega), getD_set_self (by rw [hlA]; omega)]
  have hV1 : ((A.set 0 cloud).set 1 (A.getD 1 0 - cloud)).getD 1 0 =
      s.watermark_volumes.getD 0 0 - cloud := by
    rw [getD_set_self (by rw [List.length_set, hlA]; omega), hA1]
  have hR0 : row_sum (blend_cells Af (0 * s.n_traps) s.n_traps e)
      s.n_traps s.density 0 =
      (1 - e) * row_sum s.watermark_fills s.n_traps s.density 0 +
        e * sumN s.density s.n_traps := by
    rw [row_sum_blend_in Af s.n_traps s.density e (0 * s.n_traps)
      s.n_traps 0 (by omega) (by omega)
      (by rw [hlAf]; exact row_bound (by omega) hlf)]
    rw [hAf, row_sum_copy_rows_low s.watermark_fills s.n_traps s.density 0
      (nA0 + 1 + 1) 0 (by omega)]
  have hR1 : row_sum (blend_cells Af (0 * s.n_traps) s.n_traps e)
      s.n_traps s.density 1 =
      row_sum s.watermark_fills s.n_traps s.density 0 := by
    rw [row_sum_blend_out _ _ _ _ _ _ _ (by omega), hAf,
      row_sum_copy_rows_shift s.watermark_fills s.n_traps s.density 0
        (nA0 + 1 + 1) 1 (by omega) (by omega) (row_bound (by omega) hlf)]
  have htail : sumN (fun k =>
      row_sum (blend_cells Af (0 * s.n_traps) s.n_traps e) s.n_traps
        s.density (k + 1 + 1) *
      ((A.set 0 cloud).set 1 (A.getD 1 0 - cloud)).getD (k + 1 + 1) 0) nA0 =
      sumN (fun k => row_sum s.watermark_fills s.n_traps s.density (k + 1) *
        s.watermark_volumes.getD (k + 1) 0) nA0 := by
    refine sumN_congr (fun k hk => ?_)
    rw [getD_set_ne (by omega), getD_set_ne (by omega), hA,
      copy_up_cells_getD, if_pos ⟨by omega, by omega, by rw [hlv]; omega⟩,
      show k + 1 + 1 - 1 = k + 1 from by omega]
    rw [row_sum_blend_out _ _ _ _ _ _ _ (Or.inl (by
      have hm := mul_le_mul_right_nat s.n_traps
        (show 1 ≤ k + 1 + 1 from by omega)
      omega))]
    rw [hAf, row_sum_copy_rows_shift s.watermark_fills s.n_traps s.density 0
      (nA0 + 1 + 1) (k + 1 + 1) (by omega) (by omega)
      (row_bound (by omega) hlf),
      show k + 1 + 1 - 1 = k + 1 from by omega]
  rw [hV0, hV1, hR0, hR1, htail]
  ring

end TrapManager

theorem sumN_one (f : ℕ → ℚ) : sumN f 1 = f 0 := by
  show sumN f 0 + f 0 = f 0
  rw [show sumN f 0 = (0 : ℚ) from rfl, zero_add]

namespace TrapManager

/-- Conservation of the full-capture update, cloud-above-stack branch. -/
theorem conserve_full_above (s : TrapManager) (cloud : ℚ) (ia : ℕ)
    (ncap : ℚ) (h0 : s.i_first_active_wmk = 0)
    (hlv : s.watermark_volumes.length = s.n_watermarks)
    (hlf : s.watermark_fills.length = s.n_traps * s.n_watermarks)
    (hroom : s.n_active_watermarks < s.n_watermarks)
    (hfz : ∀ j, s.n_active_watermarks * s.n_traps ≤ j →
      s.watermark_fills.getD j 0 = 0)
    (hb1 : ¬ s.n_active_watermarks = 0)
    (hb2 : ¬ ia = s.i_first_active_wmk)
    (hb4 : ia = s.i_first_active_wmk + s.n_active_watermarks)
    (hNC : ncap = ncap_closed s cloud ia) :
    n_trapped_electrons_from_watermarks (update_watermarks_full s cloud ia)
      (update_watermarks_full s cloud ia).watermark_volumes
      (update_watermarks_full s cloud ia).watermark_fills =
      n_trapped_electrons_from_watermarks s s.watermark_volumes
        s.watermark_fills + ncap := by
  have hia : ia = s.n_active_watermarks := by omega
  subst hia
  rw [n_trapped_closed, n_trapped_closed, dens_update_full, nt_update_full,
    hNC]
  unfold update_watermarks_full ncap_closed
  dsimp only
  split_ifs
  simp only [set_row_const, h0, Nat.zero_add]
  rw [sumN_one]
  simp only [Nat.add_zero]
  have hRia : row_sum s.watermark_fills s.n_traps s.density
      s.n_active_watermarks = 0 := by
    unfold row_sum
    refine (sumN_congr (fun t ht => ?_)).trans (sumN_zero_fun s.n_traps)
    rw [hfz (s.n_active_watermarks * s.n_traps + t) (by omega)]
    ring
  have hV : (s.watermark_volumes.set (s.n_active_watermarks - 1)
      cloud).getD (s.n_active_watermarks - 1) 0 = cloud :=
    getD_set_self (by rw [hlv]; omega) cloud
  have hRow : row_sum (set_cells_const s.watermark_fills
      ((s.n_active_watermarks - 1) * s.n_traps) s.n_traps 1) s.n_traps
      s.density (s.n_active_watermarks - 1) =
      1 * sumN s.density s.n_traps := by
    refine row_sum_set_cells_in _ _ _ _ _ _ _ (by omega) (by omega) ?_
    exact row_bound (by omega) hlf
  rw [hV, hRow, hRia]
  ring

/-- Conservation of the partial-capture update, cloud-above-stack branch. -/
theorem conserve_enough_above (s : TrapManager) (cloud : ℚ) (ia : ℕ)
    (ncap e : ℚ) (h0 : s.i_first_active_wmk = 0)
    (hlv : s.watermark_volumes.length = s.n_watermarks)
    (hlf : s.watermark_fills.length = s.n_traps * s.n_watermarks)
    (hroom : s.n_active_watermarks < s.n_watermarks)
    (hfz : ∀ j, s.n_active_watermarks * s.n_traps ≤ j →
      s.watermark_fills.getD j 0 = 0)
    (hb1 : ¬ s.n_active_watermarks = 0)
    (hb2 : ¬ ia = s.i_first_active_wmk)
    (hb4 : ia = s.i_first_active_wmk + s.n_active_watermarks)
    (hNC : ncap = ncap_closed s cloud ia) :
    n_trapped_electrons_from_watermarks (update_watermarks_enough s cloud ia e)
      (update_watermarks_enough s cloud ia e).watermark_volumes
      (update_watermarks_enough s cloud ia e).watermark_fills =
      n_trapped_electrons_from_watermarks s s.watermark_volumes
        s.watermark_fills + ncap * e := by
  have hia : ia = s.n_active_watermarks := by omega
  subst hia
  rw [n_trapped_closed, n_trapped_closed, dens_update_enough,
    nt_update_enough, hNC]
  unfold update_watermarks_enough ncap_closed
  dsimp only
  split_ifs
  simp only [h0, Nat.zero_add, Nat.sub_zero]
  rw [sumN_tail]
  have hRia : row_sum s.watermark_fills s.n_traps s.density
      s.n_active_watermarks = 0 := by
    unfold row_sum
    refine (sumN_congr (fun t ht => ?_)).trans (sumN_zero_fun s.n_traps)
    rw [hfz (s.n_active_watermarks * s.n_traps + t) (by omega)]
    ring
  have hVtop : (s.watermark_volumes.set s.n_active_watermarks
      (cloud - sum_cells s.watermark_volumes 0 s.n_active_watermarks)).getD
      s.n_active_watermarks 0 =
      cloud - sum_cells s.watermark_volumes 0 s.n_active_watermarks :=
    getD_set_self (by rw [hlv]; omega) _
  have hRtop : row_sum (blend_cells s.watermark_fills (0 * s.n_traps)
      ((s.n_active_watermarks + 1) * s.n_traps) e) s.n_traps s.density
      s.n_active_watermarks =
      (1 - e) * row_sum s.watermark_fills s.n_traps s.density
        s.n_active_watermarks + e * sumN s.density s.n_traps := by
    refine row_sum_blend_in _ _ _ _ _ _ _ (by omega) ?_
      (row_bound (by omega) hlf)
    have e2 : (s.n_active_watermarks + 1) * s.n_traps =
        s.n_active_watermarks * s.n_traps + s.n_traps := by ring
    omega
  have hbody : sumN (fun k =>
      row_sum (blend_cells s.watermark_fills (0 * s.n_traps)
        ((s.n_active_watermarks + 1) * s.n_traps) e) s.n_traps s.density k *
      (s.watermark_volumes.set s.n_active_watermarks
        (cloud - sum_cells s.watermark_volumes 0
          s.n_active_watermarks)).getD k 0) s.n_active_watermarks =
      (1 - e) * sumN (fun k =>
        row_sum s.watermark_fills s.n_traps s.density k *
          s.watermark_volumes.getD k 0) s.n_active_watermarks +
      e * sumN s.density s.n_traps *
        sum_cells s.watermark_volumes 0 s.n_active_watermarks := by
    have h1 : ∀ k, k < s.n_active_watermarks →
        row_sum (blend_cells s.watermark_fills (0 * s.n_traps)
          ((s.n_active_watermarks + 1) * s.n_traps) e) s.n_traps
          s.density k *
        (s.watermark_volumes.set s.n_active_watermarks
          (cloud - sum_cells s.watermark_volumes 0
            s.n_active_watermarks)).getD k 0 =
        ((1 - e) * row_sum s.watermark_fills s.n_traps s.density k +
          e * sumN s.density s.n_traps) * s.watermark_volumes.getD k 0 := by
      intro k hk
      rw [getD_set_ne (by omega)]
      rw [row_sum_blend_in _ _ _ _ _ _ _ (by omega) (by
        have hm := mul_le_mul_right_nat s.n_traps
          (show k + 1 ≤ s.n_active_watermarks + 1 from by omega)
        have e2 : (k + 1) * s.n_traps = k * s.n_traps + s.n_traps := by ring
        omega) (row_bound (by omega) hlf)]
    rw [sumN_congr h1, sumN_blend_expand, ← sum_cells_zero_eq]
  rw [hbody, hVtop, hRtop, hRia]
  ring

end TrapManager

namespace TrapManager

/-- Conservation of the full-capture update, cloud-between-watermarks
branch. -/
theorem conserve_full_between (s : TrapManager) (cloud : ℚ) (ia : ℕ)
    (ncap : ℚ) (h0 : s.i_first_active_wmk = 0)
    (hlv : s.watermark_volumes.length = s.n_watermarks)
    (hlf : s.watermark_fills.length = s.n_traps * s.n_watermarks)
    (hroom : s.n_active_watermarks < s.n_watermarks)
    (hb1 : ¬ s.n_active_watermarks = 0)
    (hb2 : ¬ ia = s.i_first_active_wmk)
    (hb4 : ¬ ia = s.i_first_active_wmk + s.n_active_watermarks)
    (hle : ia ≤ s.i_first_active_wmk + s.n_active_watermarks)
    (hNC : ncap = ncap_closed s cloud ia) :
    n_trapped_electrons_from_watermarks (update_watermarks_full s cloud ia)
      (update_watermarks_full s cloud ia).watermark_volumes
      (update_watermarks_full s cloud ia).watermark_fills =
      n_trapped_electrons_from_watermarks s s.watermark_volumes
        s.watermark_fills + ncap := by
  obtain ⟨ia0, rfl⟩ : ∃ m, ia = m + 1 := ⟨ia - 1, by omega⟩
  obtain ⟨w, hw⟩ : ∃ w, s.n_active_watermarks = ia0 + 1 + (w + 1) :=
    ⟨s.n_active_watermarks - ia0 - 2, by omega⟩
  rw [n_trapped_closed, n_trapped_closed, dens_update_full, nt_update_full,
    hNC]
  unfold update_watermarks_full ncap_closed
  dsimp only
  split_ifs
  simp only [set_row_const, h0, Nat.zero_add, Nat.sub_zero, Nat.cast_zero,
    add_zero, Nat.add_sub_cancel]
  rw [show ((s.n_active_watermarks : ℤ) + 1 - ((ia0 + 1 : ℕ) : ℤ)).toNat =
    w + 1 + 1 from by omega]
  rw [show s.n_active_watermarks = ia0 + 1 + (w + 1) from hw]
  rw [sumN_split (fun k => row_sum s.watermark_fills s.n_traps s.density k *
    s.watermark_volumes.getD k 0) (ia0 + 1) (w + 1)]
  simp only [sumN_head, Nat.zero_add, Nat.add_zero]
  have hV0 : ((s.watermark_volumes.set (ia0 + 1)
      (sum_cells s.watermark_volumes 0 (ia0 + 1 + 1) - cloud)).set ia0
      cloud).getD ia0 0 = cloud :=
    getD_set_self (by rw [List.length_set, hlv]; omega) cloud
  have hV1 : ((s.watermark_volumes.set (ia0 + 1)
      (sum_cells s.watermark_volumes 0 (ia0 + 1 + 1) - cloud)).set ia0
      cloud).getD (ia0 + 1) 0 =
      sum_cells s.watermark_volumes 0 (ia0 + 1 + 1) - cloud := by
    rw [getD_set_ne (by omega)]
    exact getD_set_self (by rw [hlv]; omega) _
  have hR0 : row_sum (set_cells_const s.watermark_fills (ia0 * s.n_traps)
      s.n_traps 1) s.n_traps s.density ia0 =
      1 * sumN s.density s.n_traps := by
    refine row_sum_set_cells_in _ _ _ _ _ _ _ (by omega) (by omega) ?_
    exact row_bound (by omega) hlf
  have hR1 : row_sum (set_cells_const s.watermark_fills (ia0 * s.n_traps)
      s.n_traps 1) s.n_traps s.density (ia0 + 1) =
      row_sum s.watermark_fills s.n_traps s.density (ia0 + 1) := by
    refine row_sum_set_cells_out _ _ _ _ _ _ _ (Or.inl (by
      have e2 : (ia0 + 1) * s.n_traps = ia0 * s.n_traps + s.n_traps := by
        ring
      omega))
  have hCsucc : sum_cells s.watermark_volumes 0 (ia0 + 1 + 1) =
      sum_cells s.watermark_volumes 0 (ia0 + 1) +
        s.watermark_volumes.getD (ia0 + 1) 0 :=
    sum_cells_zero_tail _ _
  have htail : sumN (fun k =>
      row_sum (set_cells_const s.watermark_fills (ia0 * s.n_traps)
        s.n_traps 1) s.n_traps s.density (ia0 + (k + 1 + 1)) *
      ((s.watermark_volumes.set (ia0 + 1)
        (sum_cells s.watermark_volumes 0 (ia0 + 1 + 1) - cloud)).set ia0
        cloud).getD (ia0 + (k + 1 + 1)) 0) w =
      sumN (fun k => row_sum s.watermark_fills s.n_traps s.density
        (ia0 + 1 + (k + 1)) *
        s.watermark_volumes.getD (ia0 + 1 + (k + 1)) 0) w := by
    refine sumN_congr (fun k hk => ?_)
    rw [getD_set_ne (by omega), getD_set_ne (by omega)]
    rw [row_sum_set_cells_out _ _ _ _ _ _ _ (Or.inl (by
      have hm := mul_le_mul_right_nat s.n_traps
        (show ia0 + 1 ≤ ia0 + (k + 1 + 1) from by omega)
      have e2 : (ia0 + 1) * s.n_traps = ia0 * s.n_traps + s.n_traps := by
        ring
      omega))]
    rw [show ia0 + (k + 1 + 1) = ia0 + 1 + (k + 1) from by omega]
  rw [hV0, hV1, hR0, hR1, htail, hCsucc]
  ring

end TrapManager

namespace TrapManager

/-- Conservation of the partial-capture update, cloud-between-watermarks
branch (including the overlong shift loop, which only moves sentinel cells
when the window starts at index 0). -/
theorem conserve_enough_between (s : TrapManager) (cloud : ℚ) (ia : ℕ)
    (ncap e : ℚ) (h0 : s.i_first_active_wmk = 0)
    (hlv : s.watermark_volumes.length = s.n_watermarks)
    (hlf : s.watermark_fills.length = s.n_traps * s.n_watermarks)
    (hroom : s.n_active_watermarks < s.n_watermarks)
    (hb1 : ¬ s.n_active_watermarks = 0)
    (hb2 : ¬ ia = s.i_first_active_wmk)
    (hb4 : ¬ ia = s.i_first_active_wmk + s.n_active_watermarks)
    (hle : ia ≤ s.i_first_active_wmk + s.n_active_watermarks)
    (hNC : ncap = ncap_closed s cloud ia) :
    n_trapped_electrons_from_watermarks (update_watermarks_enough s cloud ia e)
      (update_watermarks_enough s cloud ia e).watermark_volumes
      (update_watermarks_enough s cloud ia e).watermark_fills =
      n_trapped_electrons_from_watermarks s s.watermark_volumes
        s.watermark_fills + ncap * e := by
  obtain ⟨ia0, rfl⟩ : ∃ m, ia = m + 1 := ⟨ia - 1, by omega⟩
  obtain ⟨w, hw⟩ : ∃ w, s.n_active_watermarks = ia0 + 1 + (w + 1) :=
    ⟨s.n_active_watermarks - ia0 - 2, by omega⟩
  rw [n_trapped_closed, n_trapped_closed, dens_update_enough,
    nt_update_enough, hNC]
  unfold update_watermarks_enough ncap_closed
  dsimp only
  split_ifs
  simp only [h0, Nat.zero_add, Nat.sub_zero, Nat.add_sub_cancel]
  have hvb : sum_cells (copy_up_cells s.watermark_volumes (ia0 + 1)
      s.n_active_watermarks) 0 (ia0 + 1) =
      sum_cells s.watermark_volumes 0 (ia0 + 1) := by
    unfold sum_cells
    refine sumN_congr (fun k hk => ?_)
    rw [copy_up_cells_getD, if_neg (by omega)]
  rw [hvb]
  set A := copy_up_cells s.watermark_volumes (ia0 + 1)
    s.n_active_watermarks with hA
  set Af := copy_up_rows s.watermark_fills s.n_traps (ia0 + 1)
    s.n_active_watermarks with hAf
  set cb := sum_cells s.watermark_volumes 0 (ia0 + 1) with hcb
  have hlA : A.length = s.n_watermarks := by
    rw [hA, length_copy_up_cells, hlv]
  have hlAf : Af.length = s.watermark_fills.length := by
    rw [hAf, length_copy_up_rows]
  have hA2 : (A.set (ia0 + 1) (cloud - cb)).getD (ia0 + 1 + 1) 0 =
      s.watermark_volumes.getD (ia0 + 1) 0 := by
    rw [getD_set_ne (by omega), hA, copy_up_cells_getD,
      if_pos ⟨by omega, by omega, by rw [hlv]; omega⟩,
      show ia0 + 1 + 1 - 1 = ia0 + 1 from by omega]
  rw [hA2]
  rw [show s.n_active_watermarks + 1 = ia0 + 1 + (w + 1 + 1) from by omega]
  set g := fun k =>
    row_sum (blend_cells Af (0 * s.n_traps) ((ia0 + 1 + 1) * s.n_traps) e)
      s.n_traps s.density k *
    ((A.set (ia0 + 1) (cloud - cb)).set (ia0 + 1 + 1)
      (s.watermark_volumes.getD (ia0 + 1) 0 - (cloud - cb))).getD k 0
    with hg
  rw [sumN_split g (ia0 + 1) (w + 1 + 1)]
  rw [show s.n_active_watermarks = ia0 + 1 + (w + 1) from hw]
  rw [sumN_split (fun k => row_sum s.watermark_fills s.n_traps s.density k *
    s.watermark_volumes.getD k 0) (ia0 + 1) (w + 1)]
  rw [sumN_head (fun j => g (ia0 + 1 + j)) (w + 1)]
  beta_reduce
  rw [sumN_head (fun k => g (ia0 + 1 + (k + 1))) w]
  beta_reduce
  rw [sumN_head (fun j => row_sum s.watermark_fills s.n_traps s.density
    (ia0 + 1 + j) * s.watermark_volumes.getD (ia0 + 1 + j) 0) w]
  beta_reduce
  simp only [Nat.add_zero, Nat.zero_add]
  simp only [hg]
  have hchunk : sumN (fun k =>
      row_sum (blend_cells Af (0 * s.n_traps) ((ia0 + 1 + 1) * s.n_traps) e)
        s.n_traps s.density k *
      ((A.set (ia0 + 1) (cloud - cb)).set (ia0 + 1 + 1)
        (s.watermark_volumes.getD (ia0 + 1) 0 - (cloud - cb))).getD k 0)
      (ia0 + 1) =
      (1 - e) * sumN (fun k =>
        row_sum s.watermark_fills s.n_traps s.density k *
          s.watermark_volumes.getD k 0) (ia0 + 1) +
      e * sumN s.density s.n_traps * cb := by
    have h1 : ∀ k, k < ia0 + 1 →
        row_sum (blend_cells Af (0 * s.n_traps)
          ((ia0 + 1 + 1) * s.n_traps) e) s.n_traps s.density k *
        ((A.set (ia0 + 1) (cloud - cb)).set (ia0 + 1 + 1)
          (s.watermark_volumes.getD (ia0 + 1) 0 - (cloud - cb))).getD k 0 =
        ((1 - e) * row_sum s.watermark_fills s.n_traps s.density k +
          e * sumN s.density s.n_traps) * s.watermark_volumes.getD k 0 := by
      intro k hk
      rw [getD_set_ne (by omega), getD_set_ne (by omega), hA,
        copy_up_cells_getD, if_neg (by omega)]
      rw [row_sum_blend_in _ _ _ _ _ _ _ (by omega) (by
        have hm := mul_le_mul_right_nat s.n_traps
          (show k + 1 ≤ ia0 + 1 + 1 from by omega)
        have e2 : (k + 1) * s.n_traps = k * s.n_traps + s.n_traps := by ring
        omega) (by rw [hlAf]; exact row_bound (by omega) hlf)]
      rw [hAf, row_sum_copy_rows_low s.watermark_fills s.n_traps s.density
        (ia0 + 1) s.n_active_watermarks k (by omega)]
    rw [sumN_congr h1, sumN_blend_expand, ← sum_cells_zero_eq, ← hcb]
  have hgmid : row_sum (blend_cells Af (0 * s.n_traps)
      ((ia0 + 1 + 1) * s.n_traps) e) s.n_traps s.density (ia0 + 1) *
      ((A.set (ia0 + 1) (cloud - cb)).set (ia0 + 1 + 1)
        (s.watermark_volumes.getD (ia0 + 1) 0 - (cloud - cb))).getD
        (ia0 + 1) 0 =
      ((1 - e) * row_sum s.watermark_fills s.n_traps s.density (ia0 + 1) +
        e * sumN s.density s.n_traps) * (cloud - cb) := by
    rw [getD_set_ne (by omega), getD_set_self (by rw [hlA]; omega)]
    rw [row_sum_blend_in _ _ _ _ _ _ _ (by omega) (by
      have e2 : (ia0 + 1 + 1) * s.n_traps =
        (ia0 + 1) * s.n_traps + s.n_traps := by ring
      omega) (by rw [hlAf]; exact row_bound (by omega) hlf)]
    rw [hAf, row_sum_copy_rows_low s.watermark_fills s.n_traps s.density
      (ia0 + 1) s.n_active_watermarks (ia0 + 1) (by omega)]
  have hgtop : row_sum (blend_cells Af (0 * s.n_traps)
      ((ia0 + 1 + 1) * s.n_traps) e) s.n_traps s.density (ia0 + 1 + 1) *
      ((A.set (ia0 + 1) (cloud - cb)).set (ia0 + 1 + 1)
        (s.watermark_volumes.getD (ia0 + 1) 0 - (cloud - cb))).getD
        (ia0 + 1 + 1) 0 =
      row_sum s.watermark_fills s.n_traps s.density (ia0 + 1) *
        (s.watermark_volumes.getD (ia0 + 1) 0 - (cloud - cb)) := by
    rw [getD_set_self (by rw [List.length_set, hlA]; omega)]
    rw [row_sum_blend_out _ _ _ _ _ _ _ (Or.inl (by omega))]
    rw [hAf, row_sum_copy_rows_shift s.watermark_fills s.n_traps s.density
      (ia0 + 1) s.n_active_watermarks (ia0 + 1 + 1) (by omega) (by omega)
      (row_bound (by omega) hlf),
      show ia0 + 1 + 1 - 1 = ia0 + 1 from by omega]
  have htail : sumN (fun k =>
      row_sum (blend_cells Af (0 * s.n_traps) ((ia0 + 1 + 1) * s.n_traps) e)
        s.n_traps s.density (ia0 + 1 + (k + 1 + 1)) *
      ((A.set (ia0 + 1) (cloud - cb)).set (ia0 + 1 + 1)
        (s.watermark_volumes.getD (ia0 + 1) 0 - (cloud - cb))).getD
        (ia0 + 1 + (k + 1 + 1)) 0) w =
      sumN (fun k => row_sum s.watermark_fills s.n_traps s.density
        (ia0 + 1 + (k + 1)) *
        s.watermark_volumes.getD (ia0 + 1 + (k + 1)) 0) w := by
    refine sumN_congr (fun k hk => ?_)
    rw [getD_set_ne (by omega), getD_set_ne (by omega), hA,
      copy_up_cells_getD, if_pos ⟨by omega, by omega, by rw [hlv]; omega⟩,
      show ia0 + 1 + (k + 1 + 1) - 1 = ia0 + 1 + (k + 1) from by omega]
    rw [row_sum_blend_out _ _ _ _ _ _ _ (Or.inl (by
      have hm := mul_le_mul_right_nat s.n_traps
        (show ia0 + 1 + 1 ≤ ia0 + 1 + (k + 1 + 1) from by omega)
      omega))]
    rw [hAf, row_sum_copy_rows_shift s.watermark_fills s.n_traps s.density
      (ia0 + 1) s.n_active_watermarks (ia0 + 1 + (k + 1 + 1)) (by omega)
      (by omega) (row_bound (by omega) hlf),
      show ia0 + 1 + (k + 1 + 1) - 1 = ia0 + 1 + (k + 1) from by omega]
  rw [hchunk, hgmid, hgtop, htail]
  ring

end TrapManager

namespace TrapManager

/-- One `n_electrons_captured` call from a state whose active window starts
at index 0 conserves electrons: the trapped count grows by exactly the
returned captured count. -/
theorem captured_conserves (s : TrapManager) (n : ℚ) (p : ℚ × TrapManager)
    (h : n_electrons_captured s n = some p)
    (h0 : s.i_first_active_wmk = 0)
    (hlv : s.watermark_volumes.length = s.n_watermarks)
    (hlf : s.watermark_fills.length = s.n_traps * s.n_watermarks)
    (hroom : s.n_active_watermarks < s.n_watermarks)
    (hfz : ∀ j, s.n_active_watermarks * s.n_traps ≤ j →
      s.watermark_fills.getD j 0 = 0) :
    n_trapped_electrons_from_watermarks p.2 p.2.watermark_volumes
      p.2.watermark_fills =
      n_trapped_electrons_from_watermarks s s.watermark_volumes
        s.watermark_fills + p.1 := by
  simp only [n_electrons_captured] at h
  generalize hCLD : cloud_fractional_volume_from_electrons s.ccd n = cloud
    at h
  generalize hIA : watermark_index_above_cloud_from_volumes s
    s.watermark_volumes cloud = ia at h
  have hia_le : ia ≤ s.i_first_active_wmk + s.n_active_watermarks := by
    rw [← hIA]
    exact index_above_le s cloud
  generalize hNC : capture_count s cloud ia = ncap at h
  have hNC2 : ncap = ncap_closed s cloud ia := by
    rw [← hNC]
    unfold capture_count ncap_closed
    rw [h0, Nat.sub_zero, capture_count_closed_zero]
  generalize hE : n / ncap = e at h
  split at h
  · cases h
    dsimp only
    ring
  · split at h
    · cases h
    · split at h
      · cases h
        dsimp only
        rcases Decidable.em (s.n_active_watermarks = 0) with hnA | hnA
        · exact conserve_full_first s cloud ia ncap h0 hlv hlf hroom hfz hnA
            (by omega) hNC2
        · rcases Decidable.em (ia = s.i_first_active_wmk) with hEq | hEq
          · exact conserve_full_shift s cloud ia ncap h0 hlv hlf hroom hnA
              hEq (by omega) hNC2
          · rcases Decidable.em (ia = s.i_first_active_wmk +
                s.n_active_watermarks) with hTop | hTop
            · exact conserve_full_above s cloud ia ncap h0 hlv hlf hroom hfz
                hnA hEq hTop hNC2
            · exact conserve_full_between s cloud ia ncap h0 hlv hlf hroom
                hnA hEq hTop hia_le hNC2
      · cases h
        dsimp only
        rcases Decidable.em (s.n_active_watermarks = 0) with hnA | hnA
        · exact conserve_enough_first s cloud ia ncap e h0 hlv hlf hroom hfz
            hnA (by omega) hNC2
        · rcases Decidable.em (ia = s.i_first_active_wmk) with hEq | hEq
          · exact conserve_enough_shift s cloud ia ncap e h0 hlv hlf hroom
              hnA hEq (by omega) hNC2
          · rcases Decidable.em (ia = s.i_first_active_wmk +
                s.n_active_watermarks) with hTop | hTop
            · exact conserve_enough_above s cloud ia ncap e h0 hlv hlf hroom
                hfz hnA hEq hTop hNC2
            · exact conserve_enough_between s cloud ia ncap e h0 hlv hlf
                hroom hnA hEq hTop hia_le hNC2

end TrapManager

namespace TrapManager

/-- The release phase conserves electrons exactly: the trapped count drops
by the returned released count, and volumes are untouched. -/
theorem released_conserves (s : TrapManager)
    (h0 : s.i_first_active_wmk = 0)
    (hlf : s.watermark_fills.length = s.n_traps * s.n_watermarks)
    (hwin : s.n_active_watermarks ≤ s.n_watermarks) :
    n_trapped_electrons_from_watermarks (n_electrons_released s).2
      (n_electrons_released s).2.watermark_volumes
      (n_electrons_released s).2.watermark_fills =
      n_trapped_electrons_from_watermarks s s.watermark_volumes
        s.watermark_fills - (n_electrons_released s).1 := by
  have hdens : (n_electrons_released s).2.density = s.density := rfl
  have hnt : (n_electrons_released s).2.n_traps = s.n_traps := rfl
  rw [n_trapped_closed, n_trapped_closed, hdens, hnt]
  unfold n_electrons_released
  dsimp only
  simp only [h0, Nat.zero_add]
  rw [release_wmks_go_val]
  simp only [Nat.zero_add]
  have hrow : ∀ k, k < s.n_active_watermarks →
      row_sum (release_wmks_go (s.traps.map Trap.density)
        s.empty_probabilities_from_release s.watermark_volumes s.n_traps
        s.watermark_fills 0 s.n_active_watermarks).2 s.n_traps s.density k *
        s.watermark_volumes.getD k 0 =
      row_sum s.watermark_fills s.n_traps s.density k *
        s.watermark_volumes.getD k 0 -
      sumN (fun t => s.watermark_fills.getD (k * s.n_traps + t) 0 *
        s.empty_probabilities_from_release.getD t 0 * s.density t)
        s.n_traps * s.watermark_volumes.getD k 0 := by
    intro k hk
    rw [← sub_mul]
    congr 1
    unfold row_sum
    rw [← sumN_sub]
    refine sumN_congr (fun t ht => ?_)
    have hcell := release_wmks_go_cell (s.traps.map Trap.density)
      s.empty_probabilities_from_release s.watermark_volumes s.n_traps
      s.n_active_watermarks 0 s.watermark_fills k t hk ht (by
        rw [hlf]
        have e : (0 + k) * s.n_traps = k * s.n_traps := by ring
        have h2 := cell_lt_len (show k < s.n_watermarks from by omega) ht
        omega)
    rw [show k * s.n_traps + t = (0 + k) * s.n_traps + t from by
      have e : (0 + k) * s.n_traps = k * s.n_traps := by ring
      omega]
    rw [hcell]
    ring
  rw [sumN_congr hrow, sumN_sub]
  have hvalc : ∀ m, m < s.n_active_watermarks →
      sumN (fun t => s.watermark_fills.getD (m * s.n_traps + t) 0 *
        s.empty_probabilities_from_release.getD t 0 *
        (s.traps.map Trap.density).getD t 0) s.n_traps *
        s.watermark_volumes.getD m 0 =
      sumN (fun t => s.watermark_fills.getD (m * s.n_traps + t) 0 *
        s.empty_probabilities_from_release.getD t 0 * s.density t)
        s.n_traps * s.watermark_volumes.getD m 0 := by
    intro m hm
    congr 1
    exact sumN_congr (fun t ht => by rw [density_map_getD])
  rw [sumN_congr hvalc]

end TrapManager

/-- C2 (amended): the spec's conservation claim I5 — across one
`n_electrons_released_and_captured` call the watermark bookkeeping changes
by exactly the returned electron delta — fails in general (see
`c2_conservation_counterexample`: a valid state whose active window starts
at `i_first_active_wmk > 0` breaks it, because the index-above-cloud bug
misclassifies the capture topology). It does hold, exactly over the
rationals, for every valid state whose active window starts at index 0 and
has room for one more watermark: then `n_trapped_electrons_from_watermarks`
decreases by exactly the returned value. -/
theorem c2_conservation_amended (s : TrapManager) (q : ℚ)
    (p : ℚ × TrapManager)
    (hvalid : TrapManager.ValidState s)
    (h0 : s.i_first_active_wmk = 0)
    (hroom : s.i_first_active_wmk + s.n_active_watermarks < s.n_watermarks)
    (h : TrapManager.n_electrons_released_and_captured s q = some p) :
    TrapManager.n_trapped_electrons_from_watermarks p.2
      p.2.watermark_volumes p.2.watermark_fills =
      TrapManager.n_trapped_electrons_from_watermarks s s.watermark_volumes
        s.watermark_fills - p.1 := by
  obtain ⟨hlv, hlf, hwin, hvr, hvs, hfr, hvz0, hfz0⟩ := hvalid
  have hfz : ∀ j, s.n_active_watermarks * s.n_traps ≤ j →
      s.watermark_fills.getD j 0 = 0 := by
    intro j hj
    rcases Decidable.em (j < s.n_traps * s.n_watermarks) with hlt | hge
    · refine hfz0 j hlt (Or.inr ?_)
      rw [h0, Nat.zero_add]
      exact hj
    · exact TrapManager.getD_of_length_le (by rw [hlf]; omega)
  simp only [TrapManager.n_electrons_released_and_captured] at h
  split at h
  · cases h
  next p2 hcap =>
    cases h
    dsimp only
    have hs1lf : (TrapManager.n_electrons_released s).2.watermark_fills.length =
        s.n_traps * s.n_watermarks := by
      have hl := TrapManager.length_release_wmks_go (s.traps.map Trap.density)
        s.empty_probabilities_from_release s.watermark_volumes s.n_traps
        s.n_active_watermarks s.i_first_active_wmk s.watermark_fills
      exact hl.trans hlf
    have hs1fz : ∀ j, s.n_active_watermarks * s.n_traps ≤ j →
        (TrapManager.n_electrons_released s).2.watermark_fills.getD j 0 = 0 := by
      intro j hj
      have ht := TrapManager.release_wmks_go_tail (s.traps.map Trap.density)
        s.empty_probabilities_from_release s.watermark_volumes s.n_traps
        s.n_active_watermarks s.i_first_active_wmk s.watermark_fills j (by
          rw [h0]
          have e : (0 + s.n_active_watermarks) * s.n_traps =
            s.n_active_watermarks * s.n_traps := by ring
          omega)
      exact ht.trans (hfz j hj)
    have hcc := TrapManager.captured_conserves
      (TrapManager.n_electrons_released s).2
      (q + (TrapManager.n_electrons_released s).1) p2 hcap h0 hlv hs1lf
      (show s.n_active_watermarks < s.n_watermarks from by omega) hs1fz
    have hrel := TrapManager.released_conserves s h0 hlf (by omega)
    rw [hcc, hrel]
    ring

/-- The state reached from the freshly initialised `manager_a` by one
`release_and_capture` call with `n_free = 1/2` (a full capture into the
first watermark). -/
def c2_final_state : TrapManager :=
  { TrapManager.mkInstantCapture [⟨1⟩] 6 ⟨1, 0, 1⟩ [1/2] with
    n_watermarks := 7
    watermark_volumes := [1/2, 0, 0, 0, 0, 0, 0]
    watermark_fills := [1, 0, 0, 0, 0, 0, 0]
    n_active_watermarks := 1
    stored_watermark_volumes := [0, 0, 0, 0, 0, 0, 0]
    stored_watermark_fills := [0, 0, 0, 0, 0, 0, 0] }

theorem c2_conservation_amended_witness :
    TrapManager.ValidState manager_a ∧
    manager_a.i_first_active_wmk = 0 ∧
    manager_a.i_first_active_wmk + manager_a.n_active_watermarks <
      manager_a.n_watermarks ∧
    TrapManager.n_electrons_released_and_captured manager_a (1/2) =
      some (-(1/2), c2_final_state) ∧
    TrapManager.n_trapped_electrons_from_watermarks c2_final_state
      c2_final_state.watermark_volumes c2_final_state.watermark_fills =
      TrapManager.n_trapped_electrons_from_watermarks manager_a
        manager_a.watermark_volumes manager_a.watermark_fills - (-(1/2)) :=
  ⟨by decide, by decide, by decide, by decide,
    c2_conservation_amended manager_a (1/2) (-(1/2), c2_final_state)
      (by decide) (by decide) (by decide) (by decide)⟩
